import Mathlib

/-!
Verification of the trainspotters-friend tracklist toolchain.

The Python sources (music_store_search.py, digger.py, server.py) are embedded
shallowly: strings are `List Char` / `String`, Python dicts are association
lists in insertion order, fallible calls return `Option` / `Except`.  All
inputs of interest are ASCII, so the unicode extras of Python's whitespace
class, `\d`, and `str.lower` are not modelled.
-/

set_option maxHeartbeats 1000000

namespace Spec2Proof

/-! ### Python string primitives -/

/-- Python whitespace (`str.strip`, regex `\s`), ASCII part. -/
def pyIsSpace (c : Char) : Bool :=
  c == ' ' || c == '\t' || c == '\n' || c == '\r' || c == '\x0b' || c == '\x0c'

/-- Python `str.strip()` on a character list. -/
def stripList (l : List Char) : List Char :=
  ((l.dropWhile pyIsSpace).reverse.dropWhile pyIsSpace).reverse

/-- Python `str.strip()`. -/
def pyStrip (s : String) : String := ⟨stripList s.data⟩

/-- Python `s.split(sep, 1)` for a one-character separator; `none` when the
separator does not occur (Python then returns a one-element list). -/
def splitOnce (sep : Char) : List Char → Option (List Char × List Char)
  | [] => none
  | c :: cs =>
    if c = sep then some ([], cs)
    else (splitOnce sep cs).map (fun p => (c :: p.1, p.2))

/-- Python `s.split(sep, 1)` for a multi-character separator, splitting at the
leftmost occurrence; `(splitSub sep l).isSome` is Python's `sep in s`. -/
def splitSub (sep : List Char) : List Char → Option (List Char × List Char)
  | [] => none
  | c :: cs =>
    if sep.isPrefixOf (c :: cs) then some ([], (c :: cs).drop sep.length)
    else (splitSub sep cs).map (fun p => (c :: p.1, p.2))

/-- Python `sep in s` for a non-empty separator. -/
def containsSub (sep l : List Char) : Bool := (splitSub sep l).isSome

/-- Python `s.split(sep)` (all occurrences, keeping empty pieces). -/
def splitAll (sep : Char) : List Char → List (List Char)
  | [] => [[]]
  | c :: cs =>
    if c = sep then [] :: splitAll sep cs
    else
      match splitAll sep cs with
      | [] => [[c]]
      | h :: t => (c :: h) :: t

/-- ASCII lower-casing, modelling `re.IGNORECASE` comparisons. -/
def lowerL (l : List Char) : List Char := l.map Char.toLower

/-! ### music_store_search.Track and its line parser -/

/-- Occurrence test for the regex alternative `(?:Remix|Mix|Dub)` under
`re.IGNORECASE`. -/
def keywordCI (g : List Char) : Bool :=
  containsSub "remix".data (lowerL g) || containsSub "mix".data (lowerL g) ||
    containsSub "dub".data (lowerL g)

/-- Whether a match of `\((.*(?:Remix|Mix|Dub).*)\)$` can start at index `i`
of `t`: `t.get? i` is `(`, and the capture group — the text strictly between
that `(` and the final character, which the anchored `\)$` forces to be `)` —
contains the keyword and no newline (`.` does not match a newline).  The final
`)` itself is checked by the caller. -/
def remixOpenAt (t : List Char) (i : Nat) : Bool :=
  t.get? i == some '(' &&
    (let g := (t.drop (i + 1)).dropLast
     g.all (fun c => c != '\n') && keywordCI g)

/-- Capture group of
`re.search(r'\((.*(?:Remix|Mix|Dub).*)\)$', track_info, re.IGNORECASE)`
(music_store_search.py line 42).  `re.search` yields the match starting at the
leftmost possible position; the `$` anchor makes every match run from its
opening parenthesis to the end of the string, so the capture group of that
match is the text between the leftmost qualifying `(` and the final `)`. -/
def remixGroup (t : List Char) : Option (List Char) :=
  if t.getLast? == some ')' then
    match (List.range (t.length - 1)).find? (remixOpenAt t) with
    | some i => some ((t.drop (i + 1)).dropLast)
    | none => none
  else none

/-- Result of
`re.sub(r'\s*\(.*(?:Remix|Mix|Dub).*\)$', '', track_info, flags=re.IGNORECASE)`
(music_store_search.py line 47): the single possible match runs from the
whitespace run preceding the leftmost qualifying `(` to the end of the string
and is removed. -/
def remixSubst (t : List Char) : List Char :=
  if t.getLast? == some ')' then
    match (List.range (t.length - 1)).find? (remixOpenAt t) with
    | some i => t.take (i - ((t.take i).reverse.takeWhile pyIsSpace).length)
    | none => t
  else t

/-- music_store_search.Track (dataclass, lines 23-28). -/
structure Track where
  timestamp : String
  artist : String
  title : String
  remix_info : String
deriving DecidableEq, Repr

/-- Lines 41-57 of music_store_search.py: remix extraction and removal, then
the artist/title split of `track_info`, given the already split timestamp. -/
def parseInfo (ts info : List Char) : Track :=
  let remixInfo := (remixGroup info).getD []
  let info2 := if remixInfo ≠ [] then remixSubst info else info
  let (artist, title) :=
    match splitSub " - ".data info2 with
    | some p => p
    | none => (info2, [])
  ⟨⟨ts⟩, ⟨stripList artist⟩, ⟨stripList title⟩, ⟨remixInfo⟩⟩

/-- music_store_search.Track.parse_tracklist_line (lines 30-57); `none` models
the raised `ValueError`. -/
def parse_tracklist_line (line : String) : Option Track :=
  match splitOnce ' ' (stripList line.data) with
  | none => none
  | some p => some (parseInfo p.1 p.2)

/-- music_store_search.parse_tracklist (lines 277-290); a line whose parse
raises is logged and skipped. -/
def parse_tracklist (text : String) : List Track :=
  (splitAll '\n' (stripList text.data)).filterMap (fun l =>
    if stripList l ≠ [] then parse_tracklist_line ⟨l⟩ else none)

/-! ### A derivative-based matcher for the digger fallback regex

The fallback tier of digger.get_tracklist_from_mix_page filters lines with
`re.compile(r'^(\[\d+\]|\d{1,2}:\d{2}(:\d{2})?|\d{1,3}\.)\s+.+\s+-\s+.+')`.
The regex is transcribed into a small regular-expression type over character
classes and matched with Brzozowski derivatives; `pattern.match` (anchored at
the start only) is prefix matching. -/

inductive RE : Type where
  | emp : RE
  | eps : RE
  | cls : (Char → Bool) → RE
  | cat : RE → RE → RE
  | alt : RE → RE → RE
  | star : RE → RE

def nullable : RE → Bool
  | .emp => false
  | .eps => true
  | .cls _ => false
  | .cat r s => nullable r && nullable s
  | .alt r s => nullable r || nullable s
  | .star _ => true

def deriv : RE → Char → RE
  | .emp, _ => .emp
  | .eps, _ => .emp
  | .cls p, c => if p c then .eps else .emp
  | .cat r s, c =>
    if nullable r then .alt (.cat (deriv r c) s) (deriv s c) else .cat (deriv r c) s
  | .alt r s, c => .alt (deriv r c) (deriv s c)
  | .star r, c => .cat (deriv r c) (.star r)

/-- Whole-string match. -/
def rmatch : RE → List Char → Bool
  | r, [] => nullable r
  | r, c :: cs => rmatch (deriv r c) cs

/-- Prefix match, the semantics of Python `pattern.match`. -/
def matchPre : RE → List Char → Bool
  | r, [] => nullable r
  | r, c :: cs => nullable r || matchPre (deriv r c) cs

/-- Character class `\d` (ASCII). -/
def digitC : RE := .cls Char.isDigit

/-- Character class `\s`. -/
def wsC : RE := .cls pyIsSpace

/-- The wildcard `.`, which does not match a newline. -/
def dotC : RE := .cls (fun c => c != '\n')

/-- A literal character. -/
def chrR (a : Char) : RE := .cls (fun c => c == a)

/-- Postfix `+`. -/
def rePlus (r : RE) : RE := .cat r (.star r)

/-- Postfix `?`. -/
def reOpt (r : RE) : RE := .alt .eps r

/-- `\[\d+\]`. -/
def bracketRE : RE := .cat (chrR '[') (.cat (rePlus digitC) (chrR ']'))

/-- `\d{1,2}:\d{2}(:\d{2})?`. -/
def clockRE : RE :=
  .cat (.cat digitC (reOpt digitC))
    (.cat (chrR ':')
      (.cat (.cat digitC digitC) (reOpt (.cat (chrR ':') (.cat digitC digitC)))))

/-- `\d{1,3}\.`. -/
def ordRE : RE := .cat (.cat digitC (reOpt (.cat digitC (reOpt digitC)))) (chrR '.')

/-- The leading-marker alternation `(\[\d+\]|\d{1,2}:\d{2}(:\d{2})?|\d{1,3}\.)`. -/
def markerRE : RE := .alt bracketRE (.alt clockRE ordRE)

/-- The tail `\s+.+\s+-\s+.+`. -/
def tailRE : RE :=
  .cat (rePlus wsC)
    (.cat (rePlus dotC)
      (.cat (rePlus wsC) (.cat (chrR '-') (.cat (rePlus wsC) (rePlus dotC)))))

/-- The tracklist_pattern regex of digger.py line 157. -/
def trackPattern : RE := .cat markerRE tailRE

/-! ### digger.MixesDBScraper.get_tracklist_from_mix_page -/

/-- The "track-shaped" test of digger.py line 133: the item text contains
`" - "` and has more than 5 characters. -/
def trackShaped (s : String) : Bool :=
  containsSub " - ".data s.data && decide (5 < s.data.length)

/-- Renumbering of digger.py line 139: `f"{i+1}. {track}"`. -/
def renumber (items : List String) : List String :=
  items.enum.map (fun p => toString (p.1 + 1) ++ ". " ++ p.2)

/-- The list-tier loop of digger.py lines 127-140: scan the document's lists
in order; the first list with at least 3 track-shaped items wins and its
track-shaped items are renumbered. -/
def scanLists : List (List String) → Option (List String)
  | [] => none
  | l :: rest =>
    let ti := l.filter trackShaped
    if 3 ≤ ti.length then some (renumber ti) else scanLists rest

/-- The fallback filter of digger.py lines 159-162: strip the line, keep it
when non-empty and matching the pattern (the stripped line is appended). -/
def keepLine (line : String) : Option String :=
  let l := pyStrip line
  if l.data ≠ [] ∧ matchPre trackPattern l.data = true then some l else none

/-- Tracklist recovery of digger.get_tracklist_from_mix_page (lines 121-168),
with the parsed document abstracted to the stripped item texts of its lists
(in document order) and to its flattened visible text lines. -/
def get_tracklist_lines (lists : List (List String)) (textLines : List String) :
    List String :=
  match scanLists lists with
  | some r => r
  | none => textLines.filterMap keepLine

/-! ### music_store_search.MusicStoreSearcher.search_all_platforms -/

/-- music_store_search.SearchResult (dataclass, lines 59-66). -/
structure SearchResult where
  platform : String
  artist : String
  title : String
  url : String
  price : String
  available : Bool
deriving DecidableEq, Repr

/-- Insertion order of the platforms dict (music_store_search.py
lines 259-264). -/
def platformOrder : List String := ["bandcamp", "beatport", "traxsource", "hardwax"]

/-- music_store_search.MusicStoreSearcher.search_all_platforms
(lines 252-275).  The four network adapters are abstracted by `adapters`,
taking the platform name and the track's artist and title to either a result
list or a raised exception (`Except.error`), which the loop logs and skips.
An empty result list inserts no key; `all_results` is the returned dict in
insertion order. -/
def search_all_platforms
    (adapters : String → String → String → Except Unit (List SearchResult))
    (track : Track) : List (String × List SearchResult) :=
  platformOrder.filterMap (fun name =>
    match adapters name track.artist track.title with
    | .ok rs => if rs = [] then none else some (name, rs)
    | .error _ => none)

/-! ### music_store_search.generate_stats -/

/-- Checked division: Python raises ZeroDivisionError on a zero denominator;
float arithmetic is modelled exactly, on rationals. -/
def pyDiv (a b : ℚ) : Except Unit ℚ :=
  if b = 0 then .error () else .ok (a / b)

/-- Python dict write `d[k] = v` on an insertion-ordered association list:
an existing key keeps its position, a new key is appended. -/
def dictSet : List (String × Nat) → String → Nat → List (String × Nat)
  | [], k, v => [(k, v)]
  | (a, b) :: rest, k, v =>
    if a = k then (k, v) :: rest else (a, b) :: dictSet rest k v

/-- Loop body of the platform_stats accumulation (music_store_search.py
lines 311-315) for one `(platform, platform_results)` item: insert the key
with count 0 when absent, then increment when the result list is non-empty. -/
def statStep (st : List (String × Nat)) (item : String × List SearchResult) :
    List (String × Nat) :=
  let st1 := if (st.lookup item.1).isSome then st else st ++ [(item.1, 0)]
  if item.2 ≠ [] then dictSet st1 item.1 (((st1.lookup item.1).getD 0) + 1) else st1

/-- platform_stats (lines 309-315): iterate the result dicts of
`all_results.values()` in order, and each dict's items in order. -/
def platformStats (results : List (Nat × List (String × List SearchResult))) :
    List (String × Nat) :=
  results.foldl (fun st e => e.2.foldl statStep st) []

/-- The found_tracks count of line 306: the number of indices `i` of
`range(len(tracks))` for which `all_results` holds a non-empty dict. -/
def foundCount (tracks : List Track)
    (results : List (Nat × List (String × List SearchResult))) : Nat :=
  ((List.range tracks.length).filter
    (fun i => ((results.lookup i).getD []) ≠ [])).length

/-- The platform_rates loop of lines 318-320, iterating the stats dict in
insertion order; each count is divided (checked) by the track total. -/
def ratesLoop (total : ℚ) : List (String × Nat) → Except Unit (List (String × ℚ))
  | [] => .ok []
  | pc :: rest => do
    let q ← pyDiv (pc.2 : ℚ) total
    let tl ← ratesLoop total rest
    pure ((pc.1, q * 100) :: tl)

/-- music_store_search.generate_stats (lines 303-333), with the stats file
abstracted to the numbers written into it: the platform success rates of
line 320 (in insertion order; the file renders them sorted), the
found_tracks count, and the found_tracks fraction of line 327.  Divisions
are checked: a zero denominator is the Python ZeroDivisionError. -/
def generate_stats (tracks : List Track)
    (results : List (Nat × List (String × List SearchResult))) :
    Except Unit (List (String × ℚ) × Nat × ℚ) := do
  let total := tracks.length
  let found := foundCount tracks results
  let rates ← ratesLoop (total : ℚ) (platformStats results)
  let foundFrac ← pyDiv (found : ℚ) (total : ℚ)
  return (rates, found, foundFrac)

/-! ### music_store_search.save_results_to_csv -/

/-- One row of music_search_results.csv, fields in the order of line 340. -/
structure CsvRow where
  timestamp : String
  original_artist : String
  original_title : String
  remix_info : String
  platform : String
  found_artist : String
  found_title : String
  url : String
  price : String
deriving DecidableEq, Repr

/-- The sentinel row written for a track without results (lines 348-360). -/
def noResultsRow (t : Track) : CsvRow :=
  ⟨t.timestamp, t.artist, t.title, t.remix_info, "No results found", "", "", "", ""⟩

/-- The row written for one found result (lines 362-374). -/
def resultRow (t : Track) (r : SearchResult) : CsvRow :=
  ⟨t.timestamp, t.artist, t.title, t.remix_info, r.platform, r.artist, r.title,
    r.url, r.price⟩

/-- Row loop of save_results_to_csv (lines 345-374); `i` is the running
`enumerate` index and `all_results.get(i, {})` is the lookup with default. -/
def saveRowsFrom (results : List (Nat × List (String × List SearchResult))) :
    Nat → List Track → List CsvRow
  | _, [] => []
  | i, t :: rest =>
    (if (results.lookup i).getD [] = [] then [noResultsRow t]
     else ((results.lookup i).getD []).flatMap (fun pr => pr.2.map (resultRow t))) ++
      saveRowsFrom results (i + 1) rest

/-- music_store_search.save_results_to_csv (lines 335-376), with the csv
writer abstracted to the list of emitted rows (the header row excluded). -/
def save_results_to_csv (tracks : List Track)
    (results : List (Nat × List (String × List SearchResult))) : List CsvRow :=
  saveRowsFrom results 0 tracks

/-! ### server.search_tracks -/

/-- Exceptions the /search handler body can raise. -/
inductive PyExc where
  | httpException (code : Nat) (detail : String)
  | attributeError (msg : String)
deriving DecidableEq, Repr

/-- The method names defined on music_store_search.MusicStoreSearcher
(lines 68-275 of music_store_search.py). -/
def musicStoreSearcherMethods : List String :=
  ["__init__", "search_bandcamp", "search_beatport", "search_traxsource",
    "search_hardwax", "search_all_platforms"]

/-- Python attribute lookup `searcher.<name>`: AttributeError when the class
defines no such method. -/
def getattrSearcher (name : String) : Except PyExc Unit :=
  if name ∈ musicStoreSearcherMethods then .ok ()
  else .error (.attributeError
    ("'MusicStoreSearcher' object has no attribute '" ++ name ++ "'"))

/-- Body of the try block of server.search_tracks (server.py lines 36-77).
The call `searcher.search_all(tracks)` on line 42 is an attribute lookup of
`search_all`; when it raises, none of the remaining body runs (the value
produced after the lookup is dead code and irrelevant). -/
def search_tracks_body (tracklist : String) : Except PyExc (List Track) := do
  let tracks := parse_tracklist tracklist
  if tracks = [] then
    throw (.httpException 400 "No valid tracks found in input.")
  else do
    let _ ← getattrSearcher "search_all"
    pure tracks

/-- HTTP outcome of the /search endpoint. -/
inductive HttpOutcome where
  | success (tracks : List Track)
  | failure (code : Nat) (detail : String)
deriving DecidableEq, Repr

/-- Python `str(e)` for the caught exception; starlette's HTTPException
prints as `"<code>: <detail>"`. -/
def excMessage : PyExc → String
  | .httpException c d => toString c ++ ": " ++ d
  | .attributeError m => m

/-- server.search_tracks (lines 34-79): the blanket `except Exception` clause
catches every exception raised in the try body — including the
HTTPException(400) raised for an empty parse — and re-raises
HTTPException(500, f"Server error: {e}"). -/
def search_tracks (tracklist : String) : HttpOutcome :=
  match search_tracks_body tracklist with
  | .ok tracks => .success tracks
  | .error e => .failure 500 ("Server error: " ++ excMessage e)

/-! ### Helper lemmas on the string primitives -/

theorem splitOnce_eq_none_iff (sep : Char) (l : List Char) :
    splitOnce sep l = none ↔ sep ∉ l := by
  induction l with
  | nil => simp [splitOnce]
  | cons c cs ih =>
    rcases eq_or_ne c sep with h | h
    · subst h; simp [splitOnce]
    · simp [splitOnce, h, Option.map_eq_none', ih, Ne.symm h]

theorem splitOnce_append (sep : Char) (a b : List Char) (ha : sep ∉ a) :
    splitOnce sep (a ++ sep :: b) = some (a, b) := by
  induction a with
  | nil => simp [splitOnce]
  | cons c cs ih =>
    have hc : c ≠ sep := by rintro rfl; exact ha (List.mem_cons_self _ _)
    have hr := ih (fun h => ha (List.mem_cons_of_mem _ h))
    simp [splitOnce, hc, hr]

theorem isPrefixOf_exists {s l : List Char} (h : s.isPrefixOf l = true) :
    ∃ t, l = s ++ t := by
  obtain ⟨t, ht⟩ := List.isPrefixOf_iff_prefix.1 h
  exact ⟨t, ht.symm⟩

theorem isPrefixOf_append (s t : List Char) : s.isPrefixOf (s ++ t) = true :=
  List.isPrefixOf_iff_prefix.2 ⟨t, rfl⟩

theorem splitSub_some (sep : List Char) :
    ∀ l a b, splitSub sep l = some (a, b) →
      l = a ++ sep ++ b ∧ ∀ a2 b2, l = a2 ++ sep ++ b2 → a.length ≤ a2.length := by
  intro l
  induction l with
  | nil => intro a b h; simp [splitSub] at h
  | cons c cs ih =>
    intro a b h
    rw [splitSub] at h
    by_cases hp : sep.isPrefixOf (c :: cs) = true
    · rw [if_pos hp] at h
      obtain ⟨t, ht⟩ := isPrefixOf_exists hp
      have hdrop : (c :: cs).drop sep.length = t := by
        rw [ht]; exact List.drop_left _ _
      rw [hdrop] at h
      simp only [Option.some.injEq, Prod.mk.injEq] at h
      obtain ⟨rfl, rfl⟩ := h
      refine ⟨by simpa using ht, fun a2 b2 _ => Nat.zero_le _⟩
    · rw [if_neg hp] at h
      obtain ⟨⟨a1, b1⟩, hrec, heq⟩ := Option.map_eq_some'.1 h
      obtain ⟨hl, hmin⟩ := ih a1 b1 hrec
      simp only [Prod.mk.injEq] at heq
      obtain ⟨rfl, rfl⟩ := heq
      refine ⟨by simp [hl], ?_⟩
      intro a2 b2 h2
      cases a2 with
      | nil =>
        exfalso
        apply hp
        simp only [List.nil_append] at h2
        rw [h2]
        exact isPrefixOf_append _ _
      | cons c2 a2t =>
        simp only [List.cons_append, List.cons.injEq] at h2
        simpa using Nat.succ_le_succ (hmin a2t b2 h2.2)

theorem splitSub_none (sep : List Char) (hsep : sep ≠ []) :
    ∀ l, splitSub sep l = none → ∀ a b, l ≠ a ++ sep ++ b := by
  intro l
  induction l with
  | nil =>
    intro _ a b hab
    rcases List.append_eq_nil.1 ((List.append_eq_nil.1 hab.symm).1) with ⟨_, h2⟩
    exact hsep h2
  | cons c cs ih =>
    intro h a b hab
    rw [splitSub] at h
    by_cases hp : sep.isPrefixOf (c :: cs) = true
    · rw [if_pos hp] at h; exact Option.noConfusion h
    · rw [if_neg hp] at h
      have hrec : splitSub sep cs = none := Option.map_eq_none'.1 h
      cases a with
      | nil =>
        apply hp
        simp only [List.nil_append] at hab
        rw [hab]
        exact isPrefixOf_append _ _
      | cons c2 a2 =>
        simp only [List.cons_append, List.cons.injEq] at hab
        exact ih hrec a2 b hab.2

theorem containsSub_iff (sep : List Char) (hsep : sep ≠ []) (l : List Char) :
    containsSub sep l = true ↔ ∃ a b, l = a ++ sep ++ b := by
  constructor
  · intro h
    obtain ⟨⟨a, b⟩, hab⟩ := Option.isSome_iff_exists.1 h
    exact ⟨a, b, (splitSub_some sep l a b hab).1⟩
  · rintro ⟨a, b, rfl⟩
    show (splitSub sep (a ++ sep ++ b)).isSome = true
    cases hc : splitSub sep (a ++ sep ++ b) with
    | some p => rfl
    | none => exact absurd rfl (splitSub_none sep hsep _ hc a b)

theorem stripList_eq_self {l : List Char}
    (hh : ∀ c, l.head? = some c → pyIsSpace c = false)
    (hl : ∀ c, l.getLast? = some c → pyIsSpace c = false) :
    stripList l = l := by
  have h1 : l.dropWhile pyIsSpace = l := by
    cases l with
    | nil => rfl
    | cons c cs => simp [List.dropWhile_cons, hh c rfl]
  have h2 : l.reverse.dropWhile pyIsSpace = l.reverse := by
    cases hr : l.reverse with
    | nil => rfl
    | cons c cs =>
      have hc : l.getLast? = some c := by
        rw [← List.head?_reverse, hr]; rfl
      simp [List.dropWhile_cons, hl c hc]
  rw [stripList, h1, h2, List.reverse_reverse]

theorem find?_range_eq_some {p : Nat → Bool} {n k : Nat} (hk : k < n) (hp : p k = true)
    (hmin : ∀ j, j < k → p j = false) : (List.range n).find? p = some k := by
  induction n with
  | zero => exact absurd hk (Nat.not_lt_zero k)
  | succ n ih =>
    rw [List.range_succ, List.find?_append]
    rcases Nat.lt_or_ge k n with h | h
    · rw [ih h]; rfl
    · have hkn : k = n := Nat.le_antisymm (Nat.lt_succ_iff.1 hk) h
      subst hkn
      have hnone : (List.range k).find? p = none :=
        List.find?_eq_none.2 (fun x hx => by
          rw [hmin x (List.mem_range.1 hx)]; simp)
      rw [hnone]
      simp [List.find?, hp]

theorem drop_right_while_eq_take (l : List Char) (p : Char → Bool) :
    l.take (l.length - (l.reverse.takeWhile p).length) =
      (l.reverse.dropWhile p).reverse := by
  obtain ⟨A, B, hAB, hA, hB⟩ :
      ∃ A B, l = A ++ B ∧ A = (l.reverse.dropWhile p).reverse ∧
        B = (l.reverse.takeWhile p).reverse := by
    refine ⟨_, _, ?_, rfl, rfl⟩
    calc l = l.reverse.reverse := (List.reverse_reverse l).symm
    _ = (l.reverse.takeWhile p ++ l.reverse.dropWhile p).reverse := by
        rw [List.takeWhile_append_dropWhile]
    _ = (l.reverse.dropWhile p).reverse ++ (l.reverse.takeWhile p).reverse := by
        rw [List.reverse_append]
  rw [← hA, show (l.reverse.takeWhile p).length = B.length by rw [hB, List.length_reverse]]
  rw [hAB, show (A ++ B).length - B.length = A.length by simp]
  exact List.take_left _ _

/-! ### Lemmas on the line parser -/

theorem parse_line_eq {line : String} {ts info : List Char}
    (h : splitOnce ' ' (stripList line.data) = some (ts, info)) :
    parse_tracklist_line line = some (parseInfo ts info) := by
  rw [parse_tracklist_line, h]

theorem parseInfo_remix_info (ts info : List Char) :
    (parseInfo ts info).remix_info = ⟨(remixGroup info).getD []⟩ := by
  rw [parseInfo]

theorem parse_line_isSome_iff (line : String) :
    (parse_tracklist_line line).isSome = true ↔ ' ' ∈ stripList line.data := by
  rw [parse_tracklist_line]
  cases h : splitOnce ' ' (stripList line.data) with
  | none =>
    have := (splitOnce_eq_none_iff ' ' (stripList line.data)).1 h
    simp [this]
  | some p =>
    have hmem : ' ' ∈ stripList line.data := by
      by_contra hmem
      rw [(splitOnce_eq_none_iff ' ' _).2 hmem] at h
      exact Option.noConfusion h
    simp [hmem]

theorem keywordCI_ne_nil {g : List Char} (h : keywordCI g = true) : g ≠ [] := by
  rintro rfl
  exact absurd h (by decide)

theorem remixGroup_concat {pre inner : List Char} (hpre : '(' ∉ pre)
    (hnl : '\n' ∉ inner) (hkw : keywordCI inner = true) :
    remixGroup (pre ++ '(' :: (inner ++ [')'])) = some inner ∧
    remixSubst (pre ++ '(' :: (inner ++ [')'])) =
      (pre.reverse.dropWhile pyIsSpace).reverse := by
  set t := pre ++ '(' :: (inner ++ [')']) with ht
  have hassoc : t = (pre ++ '(' :: inner) ++ [')'] := by simp [ht]
  have hlast : t.getLast? = some ')' := by rw [hassoc]; exact List.getLast?_concat _
  have hlen : t.length = pre.length + inner.length + 2 := by
    simp only [ht, List.length_append, List.length_cons, List.length_nil]
    omega
  have hdrop : t.drop (pre.length + 1) = inner ++ [')'] := by
    have h2 : t = (pre ++ ['(']) ++ (inner ++ [')']) := by simp [ht]
    have hl : pre.length + 1 = (pre ++ ['(']).length := by simp
    rw [h2, hl]
    exact List.drop_left _ _
  have hget : t.get? pre.length = some '(' := by
    rw [ht, List.get?_append_right (le_refl pre.length)]
    simp
  have hopen : remixOpenAt t pre.length = true := by
    rw [remixOpenAt, hget, hdrop, List.dropLast_concat]
    simp only [beq_self_eq_true, Bool.true_and]
    rw [hkw]
    simp only [Bool.and_true, List.all_eq_true]
    intro c hc
    have hc2 : c ≠ '\n' := fun h => hnl (h ▸ hc)
    simpa using hc2
  have hfalse : ∀ j, j < pre.length → remixOpenAt t j = false := by
    intro j hj
    obtain ⟨c, hc⟩ : ∃ c, pre.get? j = some c := by
      cases h : pre.get? j with
      | none => exact absurd (List.get?_eq_none.1 h) (Nat.not_le.2 hj)
      | some c => exact ⟨c, rfl⟩
    have hcm : c ∈ pre := List.get?_mem hc
    have hcne : c ≠ '(' := fun h => hpre (h ▸ hcm)
    have hgt : t.get? j = some c := by
      rw [ht, List.get?_append hj, hc]
    rw [remixOpenAt, hgt]
    rw [show ((some c == some '(') = false) from
      beq_eq_false_iff_ne.2 (by simpa using hcne)]
    exact Bool.false_and _
  have hfind : (List.range (t.length - 1)).find? (remixOpenAt t) = some pre.length := by
    apply find?_range_eq_some _ hopen (fun j hj => hfalse j hj)
    omega
  have hcond : (t.getLast? == some ')') = true := by rw [hlast]; rfl
  have htake : t.take pre.length = pre := by
    rw [ht]
    exact List.take_left _ _
  constructor
  · rw [remixGroup, if_pos hcond, hfind]
    show some (t.drop (pre.length + 1)).dropLast = some inner
    rw [hdrop, List.dropLast_concat]
  · rw [remixSubst, if_pos hcond, hfind]
    show t.take (pre.length - ((t.take pre.length).reverse.takeWhile pyIsSpace).length) =
      (pre.reverse.dropWhile pyIsSpace).reverse
    rw [htake]
    have hle : pre.length - (pre.reverse.takeWhile pyIsSpace).length ≤ pre.length :=
      Nat.sub_le _ _
    rw [ht, List.take_append_of_le_length hle]
    exact drop_right_while_eq_take pre pyIsSpace

theorem parse_line_remix (ts pre inner : List Char) (hts : ts ≠ [])
    (htsw : ∀ c ∈ ts, pyIsSpace c = false) (hpre : '(' ∉ pre) (hnl : '\n' ∉ inner)
    (hkw : keywordCI inner = true) :
    (parse_tracklist_line ⟨ts ++ ' ' :: (pre ++ '(' :: (inner ++ [')']))⟩).map
      Track.remix_info = some ⟨inner⟩ := by
  have hstrip : stripList (ts ++ ' ' :: (pre ++ '(' :: (inner ++ [')']))) =
      ts ++ ' ' :: (pre ++ '(' :: (inner ++ [')'])) := by
    apply stripList_eq_self
    · intro c hc
      cases ts with
      | nil => exact absurd rfl hts
      | cons a as =>
        simp only [List.cons_append, List.head?_cons, Option.some.injEq] at hc
        have ha := htsw a (List.mem_cons_self _ _)
        exact hc ▸ ha
    · intro c hc
      have h2 : ts ++ ' ' :: (pre ++ '(' :: (inner ++ [')'])) =
          (ts ++ ' ' :: (pre ++ '(' :: inner)) ++ [')'] := by simp
      rw [h2, List.getLast?_concat] at hc
      cases hc
      decide
  have hsp : ' ' ∉ ts := fun h => absurd (htsw ' ' h) (by decide)
  have hsplit : splitOnce ' '
      (stripList (⟨ts ++ ' ' :: (pre ++ '(' :: (inner ++ [')']))⟩ : String).data) =
      some (ts, pre ++ '(' :: (inner ++ [')'])) := by
    show splitOnce ' ' (stripList (ts ++ ' ' :: (pre ++ '(' :: (inner ++ [')'])))) = _
    rw [hstrip]
    exact splitOnce_append ' ' ts _ hsp
  rw [parse_line_eq hsplit, Option.map_some', parseInfo_remix_info,
    (remixGroup_concat hpre hnl hkw).1]
  rfl

/-! ### Claim C8: line acceptance and rejection -/

/-- Claim C8 counterexample: `"1.\tArtist"` has a whitespace-delimited first
token (`"1."`, separated by the tab from the non-empty remainder `"Artist"`),
yet `parse_tracklist_line` rejects it, because line 34 of
music_store_search.py splits on the literal space character only
(`line.strip().split(' ', 1)`), not on general whitespace. -/
theorem c8_cex :
    ("1.\tArtist" : String).data = "1.".data ++ '\t' :: "Artist".data ∧
    pyIsSpace '\t' = true ∧ "1.".data ≠ [] ∧ "Artist".data ≠ [] ∧
    ' ' ∉ ("1.\tArtist" : String).data ∧
    parse_tracklist_line "1.\tArtist" = none := by
  refine ⟨by decide, by decide, by decide, by decide, by decide, ?_⟩
  decide

/-- Claim C8, amended: the parser splits the stripped line at the first
literal space character (`U+0020`), so it accepts a line exactly when the
stripped line contains a space; a rejected line inside `parse_tracklist` is
skipped while the remaining lines still parse. -/
theorem c8_thm :
    (∀ line : String,
      (parse_tracklist_line line).isSome = true ↔ ' ' ∈ stripList line.data) ∧
    parse_tracklist "1.\tArtist\n1:00 Foo - Bar" =
      [⟨"1:00", "Foo", "Bar", ""⟩] := by
  refine ⟨parse_line_isSome_iff, ?_⟩
  decide

/-! ### Claim C1: remix extraction -/

/-- Claim C1 counterexample: the post-timestamp text of
`"01:00 Artist (UK) - Title (Some Remix)"` ends with the parenthesized group
`"(Some Remix)"` whose contents contain `Remix`, but the parser does not set
remixInfo to its inner text `"Some Remix"`: the regex of line 42 matches from
the leftmost `(`, capturing `"UK) - Title (Some Remix"`, and the removal of
line 47 deletes everything from that `(` on, leaving artist `"Artist"` and an
empty title. -/
theorem c1_cex :
    ("Artist (UK) - Title (Some Remix)" : String).data =
      "Artist (UK) - Title ".data ++ '(' :: ("Some Remix".data ++ [')']) ∧
    '(' ∉ "Some Remix".data ∧ ')' ∉ "Some Remix".data ∧
    keywordCI "Some Remix".data = true ∧
    parse_tracklist_line "01:00 Artist (UK) - Title (Some Remix)" =
      some ⟨"01:00", "Artist", "", "UK) - Title (Some Remix"⟩ ∧
    ("UK) - Title (Some Remix" : String) ≠ "Some Remix" := by
  refine ⟨by decide, by decide, by decide, by decide, ?_, by decide⟩
  decide

/-- Claim C1, amended: the match runs from the first `(` of the
post-timestamp text from which the text up to the final `)` contains
`remix`/`mix`/`dub` case-insensitively; remixInfo is everything strictly
between that `(` and the final `)`, and the removal deletes from the
whitespace run preceding that `(` to the end of the string.  When no earlier
`(` precedes the trailing parenthesized group this coincides with the
claim's reading; in particular
`"01:00 Artist - Title (Some Remix)"` yields artist `"Artist"`, title
`"Title"`, remixInfo `"Some Remix"`. -/
theorem c1_thm :
    (∀ pre inner : List Char, '(' ∉ pre → '\n' ∉ inner → keywordCI inner = true →
      remixGroup (pre ++ '(' :: (inner ++ [')'])) = some inner ∧
      remixSubst (pre ++ '(' :: (inner ++ [')'])) =
        (pre.reverse.dropWhile pyIsSpace).reverse) ∧
    (∀ ts pre inner : List Char, ts ≠ [] → (∀ c ∈ ts, pyIsSpace c = false) →
      '(' ∉ pre → '\n' ∉ inner → keywordCI inner = true →
      (parse_tracklist_line ⟨ts ++ ' ' :: (pre ++ '(' :: (inner ++ [')']))⟩).map
        Track.remix_info = some ⟨inner⟩) ∧
    parse_tracklist_line "01:00 Artist - Title (Some Remix)" =
      some ⟨"01:00", "Artist", "Title", "Some Remix"⟩ := by
  refine ⟨fun pre inner h1 h2 h3 => remixGroup_concat h1 h2 h3,
    fun ts pre inner h1 h2 h3 h4 h5 => parse_line_remix ts pre inner h1 h2 h3 h4 h5, ?_⟩
  decide

/-- Witness for c1_thm at concrete inputs. -/
theorem c1_wit :
    remixGroup ("Artist - Title ".data ++ '(' :: ("Some Remix".data ++ [')'])) =
      some "Some Remix".data ∧
    (parse_tracklist_line ⟨"1:00".data ++ ' ' :: ("A ".data ++ '(' ::
      ("My Dub".data ++ [')']))⟩).map Track.remix_info = some "My Dub" :=
  ⟨(c1_thm.1 "Artist - Title ".data "Some Remix".data (by decide) (by decide)
      (by decide)).1,
    c1_thm.2.1 "1:00".data "A ".data "My Dub".data (by decide) (by decide)
      (by decide) (by decide) (by decide)⟩

/-! ### Claim C6: artist/title split -/

theorem parseInfo_split {ts info a b : List Char} (hr : remixGroup info = none)
    (hs : splitSub " - ".data info = some (a, b)) :
    parseInfo ts info = ⟨⟨ts⟩, ⟨stripList a⟩, ⟨stripList b⟩, ""⟩ := by
  rw [parseInfo, hr]
  simp [hs]

theorem parseInfo_nosplit {ts info : List Char} (hr : remixGroup info = none)
    (hs : splitSub " - ".data info = none) :
    parseInfo ts info = ⟨⟨ts⟩, ⟨stripList info⟩, "", ""⟩ := by
  rw [parseInfo, hr]
  simp [hs]
  rfl

/-- Claim C6 counterexample: on `"01:00 Artist - Title ( Dub )"` the captured
remix_info field is `" Dub "`, which is not whitespace-trimmed — line 57 of
music_store_search.py strips artist and title but stores remix_info
verbatim, contradicting the claim's "all captured fields are
whitespace-trimmed". -/
theorem c6_cex :
    parse_tracklist_line "01:00 Artist - Title ( Dub )" =
      some ⟨"01:00", "Artist", "Title", " Dub "⟩ ∧
    pyStrip " Dub " ≠ " Dub " := by
  refine ⟨?_, by decide⟩
  decide

/-- Claim C6, amended: after the timestamp and any remix group are removed,
text containing `" - "` is split at the first occurrence into artist and
title, otherwise the whole text becomes the artist and the title is empty;
artist and title are whitespace-trimmed, while timestamp and remixInfo are
captured verbatim; `"1. JustOneToken"` yields artist `"JustOneToken"` and an
empty title. -/
theorem c6_thm :
    (∀ (line : String) (ts info : List Char),
      splitOnce ' ' (stripList line.data) = some (ts, info) →
      remixGroup info = none →
      ((∀ a b, splitSub " - ".data info = some (a, b) →
          parse_tracklist_line line =
            some ⟨⟨ts⟩, ⟨stripList a⟩, ⟨stripList b⟩, ""⟩ ∧
          info = a ++ " - ".data ++ b ∧
          (∀ a2 b2, info = a2 ++ " - ".data ++ b2 → a.length ≤ a2.length)) ∧
        (splitSub " - ".data info = none →
          parse_tracklist_line line = some ⟨⟨ts⟩, ⟨stripList info⟩, "", ""⟩ ∧
          ¬∃ a b, info = a ++ " - ".data ++ b))) ∧
    parse_tracklist_line "1. JustOneToken" =
      some ⟨"1.", "JustOneToken", "", ""⟩ := by
  constructor
  · intro line ts info hsplit hr
    constructor
    · intro a b hs
      refine ⟨?_, (splitSub_some _ _ _ _ hs).1, (splitSub_some _ _ _ _ hs).2⟩
      rw [parse_line_eq hsplit, parseInfo_split hr hs]
    · intro hs
      refine ⟨?_, ?_⟩
      · rw [parse_line_eq hsplit, parseInfo_nosplit hr hs]
      · rintro ⟨a, b, hab⟩
        exact splitSub_none _ (by decide) _ hs a b hab
  · decide

/-- Witness for c6_thm at concrete inputs. -/
theorem c6_wit :
    parse_tracklist_line "1:00 A - B - C" = some ⟨"1:00", "A", "B - C", ""⟩ ∧
    ("A - B - C" : String).data = "A".data ++ " - ".data ++ "B - C".data := by
  have h := ((c6_thm.1 "1:00 A - B - C" "1:00".data "A - B - C".data
    (by decide) (by decide)).1 "A".data "B - C".data (by decide))
  exact ⟨h.1, h.2.1⟩

/-! ### Claim C3: structured-list tier -/

theorem scanLists_append {pre : List (List String)} {l : List String}
    {post : List (List String)}
    (hpre : ∀ l2 ∈ pre, (l2.filter trackShaped).length < 3)
    (hl : 3 ≤ (l.filter trackShaped).length) :
    scanLists (pre ++ l :: post) = some (renumber (l.filter trackShaped)) := by
  induction pre with
  | nil =>
    rw [List.nil_append, scanLists]
    simp only [if_pos hl]
  | cons p ps ih =>
    rw [List.cons_append, scanLists]
    have hp := hpre p (List.mem_cons_self _ _)
    rw [if_neg (by omega)]
    exact ih (fun l2 h2 => hpre l2 (List.mem_cons_of_mem _ h2))

theorem scanLists_none {ls : List (List String)}
    (h : ∀ l ∈ ls, (l.filter trackShaped).length < 3) : scanLists ls = none := by
  induction ls with
  | nil => rfl
  | cons p ps ih =>
    rw [scanLists]
    have hp := h p (List.mem_cons_self _ _)
    rw [if_neg (by omega)]
    exact ih (fun l2 h2 => h l2 (List.mem_cons_of_mem _ h2))

/-- Claim C3: the first document list with at least 3 track-shaped items
(text containing `" - "`, longer than 5 characters) wins; its track-shaped
items are renumbered and returned, and the flattened text lines are ignored;
the pattern fallback runs only when no list qualifies. -/
theorem c3_thm :
    (∀ (pre : List (List String)) (l : List String) (post : List (List String))
        (textLines : List String),
      (∀ l2 ∈ pre, (l2.filter trackShaped).length < 3) →
      3 ≤ (l.filter trackShaped).length →
      get_tracklist_lines (pre ++ l :: post) textLines =
        renumber (l.filter trackShaped)) ∧
    (∀ (lists : List (List String)) (textLines : List String),
      (∀ l ∈ lists, (l.filter trackShaped).length < 3) →
      get_tracklist_lines lists textLines = textLines.filterMap keepLine) := by
  constructor
  · intro pre l post textLines hpre hl
    rw [get_tracklist_lines, scanLists_append hpre hl]
  · intro lists textLines h
    rw [get_tracklist_lines, scanLists_none h]

/-- Witness for c3_thm: a qualifying second list beats a stray
pattern-matching text line; with no qualifying list the fallback runs. -/
theorem c3_wit :
    get_tracklist_lines [["tooshort"], ["A - BCD", "C - DEF", "E - FGH"]]
      ["12:34 Stray - Line"] = ["1. A - BCD", "2. C - DEF", "3. E - FGH"] ∧
    get_tracklist_lines [["nope"]] ["12:34 Stray - Line"] =
      (["12:34 Stray - Line"] : List String).filterMap keepLine := by
  constructor
  · have h := c3_thm.1 [["tooshort"]] ["A - BCD", "C - DEF", "E - FGH"] []
      ["12:34 Stray - Line"] (by decide) (by decide)
    exact h.trans (by decide)
  · exact c3_thm.2 [["nope"]] _ (by decide)

/-! ### Claim C4: the search coordinator -/

theorem lookup_eq_none_of_keys {α β : Type} [BEq α] [LawfulBEq α]
    {l : List (α × β)} {p : α}
    (h : ∀ e ∈ l, e.1 ≠ p) : l.lookup p = none := by
  induction l with
  | nil => rfl
  | cons e rest ih =>
    obtain ⟨k, v⟩ := e
    have hk : (p == k) = false :=
      beq_eq_false_iff_ne.2 (fun hh => h (k, v) (List.mem_cons_self _ _) hh.symm)
    simp only [List.lookup, hk]
    exact ih (fun e2 h2 => h e2 (List.mem_cons_of_mem _ h2))

theorem lookup_map_snd {β γ : Type} (st : List (String × β)) (f : β → γ) (p : String) :
    (st.map (fun pc => (pc.1, f pc.2))).lookup p = (st.lookup p).map f := by
  induction st with
  | nil => rfl
  | cons pc rest ih =>
    obtain ⟨k, v⟩ := pc
    by_cases hk : p = k
    · subst hk
      simp [List.lookup]
    · have hb : (p == k) = false := beq_eq_false_iff_ne.2 hk
      simp only [List.map_cons, List.lookup, hb]
      exact ih

theorem lookup_filterMap {β : Type} (names : List String)
    (g : String → Option (String × β)) (hg : ∀ q e, g q = some e → e.1 = q)
    (hnd : names.Nodup) {p : String} (hp : p ∈ names) :
    (names.filterMap g).lookup p = (g p).map Prod.snd := by
  induction names with
  | nil => exact absurd hp (List.not_mem_nil p)
  | cons q rest ih =>
    obtain ⟨hq, hndr⟩ := List.nodup_cons.1 hnd
    by_cases hpq : p = q
    · subst hpq
      cases hgp : g p with
      | none =>
        rw [List.filterMap_cons_none hgp]
        simp only [Option.map_none']
        apply lookup_eq_none_of_keys
        intro e he
        obtain ⟨q2, hq2mem, hq2⟩ := List.mem_filterMap.1 he
        rw [hg q2 e hq2]
        exact fun hh => hq (hh ▸ hq2mem)
      | some e =>
        rw [List.filterMap_cons_some hgp]
        have he1 : e.1 = p := hg p e hgp
        obtain ⟨k, v⟩ := e
        cases he1
        simp [List.lookup]
    · have hpr : p ∈ rest := (List.mem_cons.1 hp).resolve_left hpq
      cases hgq : g q with
      | none => rw [List.filterMap_cons_none hgq]; exact ih hndr hpr
      | some e =>
        rw [List.filterMap_cons_some hgq]
        have he1 : e.1 = q := hg q e hgq
        obtain ⟨k, v⟩ := e
        have hk : (p == k) = false :=
          beq_eq_false_iff_ne.2 (fun hh => hpq (hh.trans he1))
        simp only [List.lookup, hk]
        exact ih hndr hpr

theorem search_all_platforms_lookup
    (C : String → String → String → Except Unit (List SearchResult))
    (track : Track) {p : String} (hp : p ∈ platformOrder) :
    (search_all_platforms C track).lookup p =
      (match C p track.artist track.title with
        | .ok rs => if rs = [] then none else some (p, rs)
        | .error _ => none).map Prod.snd := by
  have hg : ∀ q (e : String × List SearchResult),
      (match C q track.artist track.title with
        | .ok rs => if rs = [] then none else some (q, rs)
        | .error _ => none) = some e → e.1 = q := by
    intro q e
    cases hc : C q track.artist track.title with
    | ok rs =>
      by_cases h0 : rs = [] <;> simp only [h0, if_pos, if_neg, ite_true, ite_false] <;>
        intro he
      · exact Option.noConfusion he
      · rw [← Option.some.inj he]
    | error u => intro he; exact Option.noConfusion he
  exact lookup_filterMap platformOrder _ hg (by decide) hp

/-- Claim C4: per track, the coordinator's mapping has a key for platform `p`
exactly when that platform's adapter returned a non-empty result list (so no
empty entry ever appears); a raising adapter contributes nothing, and the
entry for a platform depends only on that platform's own adapter outcome, so
one adapter's failure cannot disturb the others' entries. -/
theorem c4_thm :
    ∀ (A B : String → String → String → Except Unit (List SearchResult))
      (track : Track) (p : String) (l : List SearchResult), p ∈ platformOrder →
      (((search_all_platforms A track).lookup p = some l) ↔
        (A p track.artist track.title = .ok l ∧ l ≠ [])) ∧
      (A p track.artist track.title = B p track.artist track.title →
        (search_all_platforms A track).lookup p =
          (search_all_platforms B track).lookup p) := by
  intro A B track p l hp
  constructor
  · rw [search_all_platforms_lookup A track hp]
    cases hA : A p track.artist track.title with
    | ok rs =>
      by_cases h0 : rs = []
      · subst h0
        simp
      · simp only [if_neg h0, Option.map_some']
        constructor
        · intro h
          have := Option.some.inj h
          exact ⟨by rw [← this], by rw [← this]; exact h0⟩
        · rintro ⟨h1, _⟩
          rw [Except.ok.inj h1]
    | error u =>
      simp
  · intro hAB
    rw [search_all_platforms_lookup A track hp, search_all_platforms_lookup B track hp,
      hAB]

/-- Concrete adapters used by the c4 witness: bandcamp returns one result,
beatport raises, the rest return nothing. -/
def c4AdapterA : String → String → String → Except Unit (List SearchResult) :=
  fun name _ _ =>
    if name = "bandcamp" then
      .ok [⟨"Bandcamp", "A", "T", "http://x", "", true⟩]
    else if name = "beatport" then .error ()
    else .ok []

/-- A second adapter family agreeing with `c4AdapterA` on hardwax only. -/
def c4AdapterB : String → String → String → Except Unit (List SearchResult) :=
  fun name _ _ => if name = "hardwax" then .ok [] else .error ()

/-- Witness for c4_thm at concrete adapters. -/
theorem c4_wit :
    (search_all_platforms c4AdapterA ⟨"1:00", "A", "T", ""⟩).lookup "bandcamp" =
      some [⟨"Bandcamp", "A", "T", "http://x", "", true⟩] ∧
    (search_all_platforms c4AdapterA ⟨"1:00", "A", "T", ""⟩).lookup "hardwax" =
      (search_all_platforms c4AdapterB ⟨"1:00", "A", "T", ""⟩).lookup "hardwax" := by
  constructor
  · exact (c4_thm c4AdapterA c4AdapterB ⟨"1:00", "A", "T", ""⟩ "bandcamp"
      [⟨"Bandcamp", "A", "T", "http://x", "", true⟩] (by decide)).1.mpr
      ⟨rfl, by decide⟩
  · exact (c4_thm c4AdapterA c4AdapterB ⟨"1:00", "A", "T", ""⟩ "hardwax" []
      (by decide)).2 rfl

/-! ### Claim C7: the CSV row table -/

theorem saveRows_congr {res1 res2 : List (Nat × List (String × List SearchResult))}
    (h : ∀ j : Nat, (res1.lookup j).getD [] = (res2.lookup j).getD []) :
    ∀ (tracks : List Track) (i : Nat),
      saveRowsFrom res1 i tracks = saveRowsFrom res2 i tracks := by
  intro tracks
  induction tracks with
  | nil => intro i; rfl
  | cons t rest ih =>
    intro i
    rw [saveRowsFrom, saveRowsFrom, h i, ih (i + 1)]

theorem saveRows_enum (res : List (Nat × List (String × List SearchResult))) :
    ∀ (tracks : List Track) (i : Nat),
      saveRowsFrom res i tracks = (tracks.enumFrom i).flatMap (fun e =>
        if (res.lookup e.1).getD [] = [] then [noResultsRow e.2]
        else ((res.lookup e.1).getD []).flatMap (fun pr => pr.2.map (resultRow e.2))) := by
  intro tracks
  induction tracks with
  | nil => intro i; rfl
  | cons t rest ih =>
    intro i
    rw [saveRowsFrom, List.enumFrom, List.flatMap_cons, ih (i + 1)]

/-- Claim C7: a track with an absent entry and a track whose entry is the
empty dict render identically (the rows depend only on `lookup.getD {}`);
each row group follows the original track order, a result-less track
contributes exactly the sentinel row with empty found-fields, and any other
track contributes one row per (platform, result) pair. -/
theorem c7_thm :
    (∀ (tracks : List Track) res1 res2,
      (∀ j : Nat, (res1.lookup j).getD [] = (res2.lookup j).getD []) →
      save_results_to_csv tracks res1 = save_results_to_csv tracks res2) ∧
    (∀ (tracks : List Track) res,
      save_results_to_csv tracks res = tracks.enum.flatMap (fun e =>
        if (res.lookup e.1).getD [] = [] then [noResultsRow e.2]
        else ((res.lookup e.1).getD []).flatMap
          (fun pr => pr.2.map (resultRow e.2)))) ∧
    (∀ t : Track, (noResultsRow t).platform = "No results found" ∧
      (noResultsRow t).found_artist = "" ∧ (noResultsRow t).found_title = "" ∧
      (noResultsRow t).url = "" ∧ (noResultsRow t).price = "") := by
  refine ⟨fun tracks res1 res2 h => saveRows_congr h tracks 0,
    fun tracks res => saveRows_enum res tracks 0,
    fun t => ⟨rfl, rfl, rfl, rfl, rfl⟩⟩

/-- Witness for c7_thm: a track with entry `{}` renders exactly like a track
with no entry — one sentinel row. -/
theorem c7_wit :
    save_results_to_csv [⟨"1:00", "A", "B", ""⟩] [(0, [])] =
      save_results_to_csv [⟨"1:00", "A", "B", ""⟩] [] ∧
    save_results_to_csv [⟨"1:00", "A", "B", ""⟩] [(0, [])] =
      [noResultsRow ⟨"1:00", "A", "B", ""⟩] := by
  constructor
  · apply c7_thm.1
    intro j
    cases j with
    | zero => rfl
    | succ n => rfl
  · exact (c7_thm.2.1 [⟨"1:00", "A", "B", ""⟩] [(0, [])]).trans (by decide)

/-! ### Claim C10: division by the track total -/

theorem ratesLoop_ok {total : ℚ} (h : total ≠ 0) (st : List (String × Nat)) :
    ratesLoop total st =
      .ok (st.map (fun pc => (pc.1, (pc.2 : ℚ) / total * 100))) := by
  induction st with
  | nil => rfl
  | cons pc rest ih =>
    simp only [ratesLoop, pyDiv, if_neg h, ih]
    rfl

theorem ratesLoop_zero_error (st : List (String × Nat)) (hst : st ≠ []) :
    ratesLoop (0 : ℚ) st = .error () := by
  cases st with
  | nil => exact absurd rfl hst
  | cons pc rest =>
    simp only [ratesLoop, pyDiv, if_pos rfl]
    rfl

theorem generate_stats_eq {tracks : List Track} (h : tracks ≠ [])
    (results : List (Nat × List (String × List SearchResult))) :
    generate_stats tracks results =
      .ok ((platformStats results).map
          (fun pc => (pc.1, (pc.2 : ℚ) / (tracks.length : ℚ) * 100)),
        foundCount tracks results,
        (foundCount tracks results : ℚ) / (tracks.length : ℚ)) := by
  have hlen : tracks.length ≠ 0 := fun h0 => h (List.length_eq_zero.1 h0)
  have htot : (tracks.length : ℚ) ≠ 0 := Nat.cast_ne_zero.2 hlen
  simp only [generate_stats, ratesLoop_ok htot, pyDiv, if_neg htot]
  rfl

theorem generate_stats_nil
    (results : List (Nat × List (String × List SearchResult))) :
    generate_stats ([] : List Track) results = .error () := by
  cases hst : platformStats results with
  | nil =>
    simp only [generate_stats, hst, ratesLoop, pyDiv, List.length_nil, Nat.cast_zero,
      if_pos rfl]
    rfl
  | cons pc rest =>
    simp only [generate_stats, hst, ratesLoop, pyDiv, List.length_nil, Nat.cast_zero,
      if_pos rfl]
    rfl

/-- Claim C10: every division in generate_stats has the track total as its
denominator; with at least one track the function returns normally, and with
an empty track list it raises ZeroDivisionError — callers must guard. -/
theorem c10_thm :
    ∀ (tracks : List Track) (results : List (Nat × List (String × List SearchResult))),
      (tracks ≠ [] → ∃ out, generate_stats tracks results = .ok out) ∧
      (tracks = [] → generate_stats tracks results = .error ()) :=
  fun tracks results =>
    ⟨fun h => ⟨_, generate_stats_eq h results⟩,
      fun h => h ▸ generate_stats_nil results⟩

/-- Witness for c10_thm at a one-track list and at the empty list. -/
theorem c10_wit :
    (∃ out, generate_stats [⟨"1:00", "A", "B", ""⟩] [] = .ok out) ∧
    generate_stats [] [] = .error () :=
  ⟨(c10_thm [⟨"1:00", "A", "B", ""⟩] []).1 (by decide),
    (c10_thm [] []).2 rfl⟩

/-! ### Claim C5: the platform success-rate counting -/

/-- Whether one dict item makes the stats loop increment platform `p`. -/
def itemHit (p : String) (it : String × List SearchResult) : Bool :=
  it.1 == p && decide (it.2 ≠ [])

theorem dictSet_lookup_self (st : List (String × Nat)) (k : String) (v : Nat) :
    (dictSet st k v).lookup k = some v := by
  induction st with
  | nil => simp [dictSet, List.lookup]
  | cons e rest ih =>
    obtain ⟨a, b⟩ := e
    by_cases ha : a = k
    · subst ha; simp [dictSet, List.lookup]
    · have hb : (k == a) = false := beq_eq_false_iff_ne.2 (fun hh => ha hh.symm)
      simp only [dictSet, if_neg ha, List.lookup, hb]
      exact ih

theorem dictSet_lookup_other {q k : String} (h : q ≠ k) (st : List (String × Nat))
    (v : Nat) : (dictSet st k v).lookup q = st.lookup q := by
  induction st with
  | nil =>
    have hb : (q == k) = false := beq_eq_false_iff_ne.2 h
    simp [dictSet, List.lookup, hb]
  | cons e rest ih =>
    obtain ⟨a, b⟩ := e
    by_cases ha : a = k
    · subst ha
      have hb : (q == a) = false := beq_eq_false_iff_ne.2 h
      simp [dictSet, List.lookup, hb]
    · simp only [dictSet, if_neg ha, List.lookup]
      cases hqa : (q == a) with
      | true => rfl
      | false => exact ih

theorem lookup_append_single (st : List (String × Nat)) (k : String) (v : Nat)
    (q : String) :
    (st ++ [(k, v)]).lookup q =
      match st.lookup q with
      | some w => some w
      | none => if q = k then some v else none := by
  induction st with
  | nil =>
    by_cases hq : q = k
    · subst hq; simp [List.lookup]
    · have hb : (q == k) = false := beq_eq_false_iff_ne.2 hq
      simp [List.lookup, hb, hq]
  | cons e rest ih =>
    obtain ⟨a, b⟩ := e
    cases hqa : (q == a) with
    | true => simp [List.lookup, hqa]
    | false => simpa [List.lookup, hqa] using ih

theorem statStep_lookup_self (st : List (String × Nat))
    (item : String × List SearchResult) :
    (statStep st item).lookup item.1 =
      some ((st.lookup item.1).getD 0 + (if item.2 ≠ [] then 1 else 0)) := by
  have hst1 : (if (st.lookup item.1).isSome then st else st ++ [(item.1, 0)]).lookup
      item.1 = some ((st.lookup item.1).getD 0) := by
    cases h : st.lookup item.1 with
    | some c => simp [h]
    | none => rw [if_neg (by simp [h]), lookup_append_single, h]; simp
  rw [statStep]
  by_cases h2 : item.2 = []
  · rw [if_neg (by simp [h2]), hst1]
    simp [h2]
  · rw [if_pos h2, dictSet_lookup_self, hst1]
    simp [h2]

theorem statStep_lookup_other {p : String} (st : List (String × Nat))
    (item : String × List SearchResult) (h : p ≠ item.1) :
    (statStep st item).lookup p = st.lookup p := by
  have hst1 : (if (st.lookup item.1).isSome then st else st ++ [(item.1, 0)]).lookup
      p = st.lookup p := by
    cases hs : st.lookup item.1 with
    | some c => simp
    | none =>
      rw [if_neg (by simp [hs]), lookup_append_single]
      cases hp : st.lookup p with
      | some w => rfl
      | none => simp [h]
  rw [statStep]
  by_cases h2 : item.2 = []
  · rw [if_neg (by simp [h2])]
    exact hst1
  · rw [if_pos h2, dictSet_lookup_other h, hst1]

theorem statFold_lookup (p : String) :
    ∀ (items : List (String × List SearchResult)) (st : List (String × Nat)),
      (items.foldl statStep st).lookup p =
        match st.lookup p with
        | some c => some (c + items.countP (itemHit p))
        | none =>
          if items.any (fun it => it.1 == p) then some (items.countP (itemHit p))
          else none := by
  intro items
  induction items with
  | nil =>
    intro st
    cases h : st.lookup p <;> simp [h]
  | cons it items ih =>
    intro st
    rw [List.foldl_cons, ih]
    by_cases hpi : p = it.1
    · have hhit : itemHit p it = decide (it.2 ≠ []) := by
        simp [itemHit, hpi.symm]
      have hb : (it.1 == p) = true := beq_iff_eq.2 hpi.symm
      rw [show (statStep st it).lookup p = some ((st.lookup p).getD 0 +
          (if it.2 ≠ [] then 1 else 0)) from hpi ▸ statStep_lookup_self st it]
      cases hs : st.lookup p with
      | some c =>
        simp only [hs, Option.getD_some, List.countP_cons, hhit, List.any_cons, hb,
          Bool.true_or]
        by_cases h2 : it.2 = [] <;> simp [h2] <;> omega
      | none =>
        simp only [hs, Option.getD_none, List.countP_cons, hhit, List.any_cons, hb,
          Bool.true_or, Nat.zero_add, if_true]
        by_cases h2 : it.2 = [] <;> simp [h2] <;> omega
    · have hhit : itemHit p it = false := by
        simp only [itemHit, Bool.and_eq_false_iff]
        exact Or.inl (beq_eq_false_iff_ne.2 (fun hh => hpi hh.symm))
      have hb : (it.1 == p) = false := beq_eq_false_iff_ne.2 (fun hh => hpi hh.symm)
      rw [statStep_lookup_other st it hpi]
      simp only [List.countP_cons, hhit, List.any_cons, hb, Bool.false_or, if_false]
      cases hs : st.lookup p <;> simp [hs]

theorem foldl_statStep_dicts :
    ∀ (ds : List (List (String × List SearchResult))) (st : List (String × Nat)),
      ds.foldl (fun s d => d.foldl statStep s) st = (ds.flatten).foldl statStep st := by
  intro ds
  induction ds with
  | nil => intro st; rfl
  | cons d rest ih =>
    intro st
    rw [List.foldl_cons, List.flatten_cons, List.foldl_append, ih]

theorem platformStats_eq_flatten
    (results : List (Nat × List (String × List SearchResult))) :
    platformStats results =
      ((results.map Prod.snd).flatten).foldl statStep [] := by
  rw [platformStats, ← foldl_statStep_dicts, List.foldl_map]

theorem countP_itemHit_of_nodup {p : String}
    (d : List (String × List SearchResult)) (hnd : (d.map Prod.fst).Nodup) :
    d.countP (itemHit p) = if ((d.lookup p).getD []) ≠ [] then 1 else 0 := by
  induction d with
  | nil => simp
  | cons it rest ih =>
    obtain ⟨q, rs⟩ := it
    rw [List.map_cons, List.nodup_cons] at hnd
    obtain ⟨hq, hndr⟩ := hnd
    by_cases hqp : q = p
    · subst hqp
      have hrest : rest.countP (itemHit q) = 0 := by
        rw [List.countP_eq_zero]
        intro it2 hit2
        simp only [itemHit, Bool.and_eq_true, not_and]
        intro hbeq
        exact absurd (List.mem_map.2 ⟨it2, hit2, beq_iff_eq.1 hbeq⟩) hq
      rw [List.countP_cons, hrest]
      simp only [List.lookup, beq_self_eq_true, Option.getD_some, itemHit]
      by_cases h2 : rs = [] <;> simp [h2]
    · have hb : (p == q) = false := beq_eq_false_iff_ne.2 (fun hh => hqp hh.symm)
      have hhit : itemHit p (q, rs) = false := by
        simp only [itemHit, Bool.and_eq_false_iff]
        exact Or.inl (beq_eq_false_iff_ne.2 hqp)
      rw [List.countP_cons, hhit]
      simp only [List.lookup, hb, if_false, Nat.add_zero]
      exact ih hndr

theorem countP_itemHit_flatten {p : String}
    (results : List (Nat × List (String × List SearchResult)))
    (hin : ∀ e ∈ results, (e.2.map Prod.fst).Nodup) :
    ((results.map Prod.snd).flatten).countP (itemHit p) =
      results.countP (fun e => decide (((e.2.lookup p).getD []) ≠ [])) := by
  induction results with
  | nil => rfl
  | cons e rest ih =>
    rw [List.map_cons, List.flatten_cons, List.countP_append, List.countP_cons,
      countP_itemHit_of_nodup e.2 (hin e (List.mem_cons_self _ _)),
      ih (fun e2 h2 => hin e2 (List.mem_cons_of_mem _ h2))]
    by_cases h2 : ((e.2.lookup p).getD []) = [] <;> simp [h2] <;> omega

theorem countP_update_mem {l : List Nat} {i : Nat} (hmem : i ∈ l) (hnd : l.Nodup)
    {Q : Nat → Bool} (hQ : Q i = false) (b : Bool) :
    l.countP (fun j => if j = i then b else Q j) =
      l.countP Q + (if b then 1 else 0) := by
  induction l with
  | nil => exact absurd hmem (List.not_mem_nil i)
  | cons a t ih =>
    obtain ⟨hat, hndt⟩ := List.nodup_cons.1 hnd
    by_cases hai : a = i
    · subst hai
      have ht : t.countP (fun j => if j = a then b else Q j) = t.countP Q := by
        apply List.countP_congr
        intro x hx
        have : x ≠ a := fun hh => hat (hh ▸ hx)
        simp [this]
      rw [List.countP_cons, List.countP_cons, ht]
      simp only [if_pos rfl, hQ, if_false, Nat.add_zero]
      cases b <;> simp
    · have hit : i ∈ t := (List.mem_cons.1 hmem).resolve_left (fun hh => hai hh.symm)
      rw [List.countP_cons, List.countP_cons, ih hit hndt]
      simp only [if_neg hai]
      cases hQa : Q a <;> cases b <;> simp <;> omega

theorem countP_entries_range {p : String}
    (results : List (Nat × List (String × List SearchResult))) (total : Nat)
    (hnd : (results.map Prod.fst).Nodup) (hlt : ∀ e ∈ results, e.1 < total) :
    results.countP (fun e => decide (((e.2.lookup p).getD []) ≠ [])) =
      (List.range total).countP
        (fun i => decide ((((results.lookup i).getD []).lookup p).getD [] ≠ [])) := by
  induction results with
  | nil =>
    rw [List.countP_nil]
    symm
    rw [List.countP_eq_zero]
    intro i _
    simp [List.lookup]
  | cons e rest ih =>
    obtain ⟨i, d⟩ := e
    rw [List.map_cons, List.nodup_cons] at hnd
    obtain ⟨hi, hndr⟩ := hnd
    have hcongr : (List.range total).countP
          (fun j => decide ((((((i, d) :: rest).lookup j).getD []).lookup p).getD []
            ≠ [])) =
        (List.range total).countP
          (fun j => if j = i then decide ((d.lookup p).getD [] ≠ [])
            else decide ((((rest.lookup j).getD []).lookup p).getD [] ≠ [])) := by
      apply List.countP_congr
      intro j _
      by_cases hji : j = i
      · subst hji
        simp [List.lookup]
      · have hb : (j == i) = false := beq_eq_false_iff_ne.2 hji
        simp [List.lookup, hb, hji]
    have hQi : decide ((((rest.lookup i).getD []).lookup p).getD [] ≠ []) = false := by
      rw [lookup_eq_none_of_keys
        (fun e2 h2 => fun hh => hi (List.mem_map.2 ⟨e2, h2, hh⟩))]
      simp
    rw [List.countP_cons, hcongr,
      countP_update_mem (List.mem_range.2 (hlt (i, d) (List.mem_cons_self _ _)))
        (List.nodup_range total) hQi,
      ih hndr (fun e2 h2 => hlt e2 (List.mem_cons_of_mem _ h2))]

/-- Claim C5: for every platform key in the returned rates, the rate equals
(number of tracks with at least one result on that platform) divided by the
track total, times 100.  The hypotheses record what the callers guarantee:
`all_results` is a dict keyed by track indices (distinct keys, all below the
track count) whose values are dicts (distinct platform keys). -/
theorem c5_thm :
    ∀ (tracks : List Track) (results : List (Nat × List (String × List SearchResult)))
      (p : String) (r : ℚ) (rates : List (String × ℚ)) (found : Nat) (frac : ℚ),
      (results.map Prod.fst).Nodup →
      (∀ e ∈ results, e.1 < tracks.length ∧ (e.2.map Prod.fst).Nodup) →
      generate_stats tracks results = .ok (rates, found, frac) →
      rates.lookup p = some r →
      r = (((List.range tracks.length).countP
            (fun i => decide ((((results.lookup i).getD []).lookup p).getD [] ≠ [])))
          : ℚ) / (tracks.length : ℚ) * 100 := by
  intro tracks results p r rates found frac hnd hin hok hlk
  have htr : tracks ≠ [] := by
    rintro rfl
    rw [generate_stats_nil] at hok
    exact Except.noConfusion hok
  rw [generate_stats_eq htr results] at hok
  have hrates : rates = (platformStats results).map
      (fun pc => (pc.1, (pc.2 : ℚ) / (tracks.length : ℚ) * 100)) := by
    have := Except.ok.inj hok
    exact (Prod.mk.injEq _ _ _ _ ▸ this).1.symm
  subst hrates
  rw [lookup_map_snd (platformStats results)
    (fun c => (c : ℚ) / (tracks.length : ℚ) * 100) p] at hlk
  obtain ⟨c, hc, hr⟩ := Option.map_eq_some'.1 hlk
  rw [platformStats_eq_flatten, statFold_lookup] at hc
  simp only [List.lookup] at hc
  have hcval : c = ((results.map Prod.snd).flatten).countP (itemHit p) := by
    by_cases hany : ((results.map Prod.snd).flatten).any (fun it => it.1 == p)
    · rw [if_pos hany] at hc
      exact (Option.some.inj hc).symm
    · rw [if_neg hany] at hc
      exact Option.noConfusion hc
  rw [← hr, hcval, countP_itemHit_flatten results (fun e he => (hin e he).2),
    countP_entries_range results tracks.length hnd (fun e he => (hin e he).1)]

/-- Ten concrete tracks for the c5 witness. -/
def c5Tracks : List Track :=
  List.replicate 10 ⟨"1:00", "A", "B", ""⟩

/-- Concrete results mapping exactly tracks 0, 2 and 5 to a non-empty
bandcamp entry (track 7 holds a bandcamp key with an empty list). -/
def c5Results : List (Nat × List (String × List SearchResult)) :=
  [(0, [("bandcamp", [⟨"Bandcamp", "A", "B", "u", "", true⟩])]),
   (2, [("bandcamp", [⟨"Bandcamp", "A", "B", "u2", "", true⟩]),
        ("beatport", [⟨"Beatport", "A", "B", "u3", "", true⟩])]),
   (5, [("bandcamp", [⟨"Bandcamp", "A", "B", "u4", "", true⟩])]),
   (7, [("bandcamp", [])])]

/-- Witness for c5_thm: 3 of 10 tracks have a bandcamp result, and the
bandcamp rate reported by generate_stats is exactly 30. -/
theorem c5_wit :
    (30 : ℚ) = (((List.range c5Tracks.length).countP
        (fun i => decide ((((c5Results.lookup i).getD []).lookup
          "bandcamp").getD [] ≠ []))) : ℚ) / (c5Tracks.length : ℚ) * 100 := by
  have hstats : (platformStats c5Results).lookup "bandcamp" = some 3 := by decide
  have hlk : ((platformStats c5Results).map
      (fun pc => (pc.1, (pc.2 : ℚ) / (c5Tracks.length : ℚ) * 100))).lookup "bandcamp" =
      some 30 := by
    rw [lookup_map_snd (platformStats c5Results)
      (fun c => (c : ℚ) / (c5Tracks.length : ℚ) * 100) "bandcamp", hstats,
      Option.map_some']
    norm_num [c5Tracks]
  exact c5_thm c5Tracks c5Results "bandcamp" 30
    ((platformStats c5Results).map
      (fun pc => (pc.1, (pc.2 : ℚ) / (c5Tracks.length : ℚ) * 100)))
    (foundCount c5Tracks c5Results)
    ((foundCount c5Tracks c5Results : ℚ) / (c5Tracks.length : ℚ))
    (by decide) (by decide)
    (generate_stats_eq (by decide) c5Results)
    hlk

/-! ### Claim C9: the /search endpoint -/

theorem search_tracks_eq_empty {s : String} (h : parse_tracklist s = []) :
    search_tracks s =
      .failure 500 "Server error: 400: No valid tracks found in input." := by
  have hb : search_tracks_body s =
      .error (.httpException 400 "No valid tracks found in input.") := by
    rw [search_tracks_body, h]
    rfl
  rw [search_tracks, hb]
  rfl

theorem search_tracks_eq_nonempty {s : String} (h : parse_tracklist s ≠ []) :
    search_tracks s = .failure 500
      "Server error: 'MusicStoreSearcher' object has no attribute 'search_all'" := by
  have hb : search_tracks_body s = .error (.attributeError
      "'MusicStoreSearcher' object has no attribute 'search_all'") := by
    rw [search_tracks_body]
    rw [if_neg h]
    rfl
  rw [search_tracks, hb]
  rfl

/-- Claim C9 counterexample: a request whose tracklist parses to zero tracks
does not get HTTP 400: the HTTPException(400) raised on server.py line 40 is
itself caught by the handler's blanket `except Exception` (HTTPException
subclasses Exception) and re-raised as HTTP 500. -/
theorem c9_cex :
    parse_tracklist "" = [] ∧
    search_tracks "" =
      .failure 500 "Server error: 400: No valid tracks found in input." ∧
    (500 : Nat) ≠ 400 := by
  refine ⟨rfl, ?_, by decide⟩
  exact search_tracks_eq_empty rfl

/-- Claim C9, amended: the endpoint never returns a success response, and
every request returns HTTP 500: zero parsed tracks raise HTTPException(400),
which the handler's own `except Exception` catches and converts to 500; at
least one parsed track reaches `searcher.search_all(tracks)`, a method that
does not exist on MusicStoreSearcher, so the AttributeError becomes 500. -/
theorem c9_thm :
    ∀ s : String,
      (parse_tracklist s = [] →
        search_tracks s =
          .failure 500 "Server error: 400: No valid tracks found in input.") ∧
      (parse_tracklist s ≠ [] →
        search_tracks s = .failure 500
          "Server error: 'MusicStoreSearcher' object has no attribute 'search_all'") ∧
      (∀ tracks, search_tracks s ≠ .success tracks) := by
  intro s
  refine ⟨fun h => search_tracks_eq_empty h, fun h => search_tracks_eq_nonempty h, ?_⟩
  intro tracks hcontra
  by_cases h : parse_tracklist s = []
  · rw [search_tracks_eq_empty h] at hcontra
    exact HttpOutcome.noConfusion hcontra
  · rw [search_tracks_eq_nonempty h] at hcontra
    exact HttpOutcome.noConfusion hcontra

/-- Witness for c9_thm at an empty and a one-track request. -/
theorem c9_wit :
    search_tracks "" =
      .failure 500 "Server error: 400: No valid tracks found in input." ∧
    search_tracks "1:00 Foo - Bar" = .failure 500
      "Server error: 'MusicStoreSearcher' object has no attribute 'search_all'" :=
  ⟨(c9_thm "").1 rfl, (c9_thm "1:00 Foo - Bar").2.1 (by decide)⟩

/-! ### Claim C2: correctness lemmas for the derivative matcher -/

theorem emp_rmatch (x : List Char) : rmatch .emp x = false := by
  induction x with
  | nil => rfl
  | cons c cs ih => exact ih

theorem eps_rmatch_iff (x : List Char) : rmatch .eps x = true ↔ x = [] := by
  cases x with
  | nil => simp [rmatch, nullable]
  | cons c cs => simp [rmatch, deriv, emp_rmatch]

theorem cls_rmatch_iff (p : Char → Bool) (x : List Char) :
    rmatch (.cls p) x = true ↔ ∃ c, x = [c] ∧ p c = true := by
  cases x with
  | nil => simp [rmatch, nullable]
  | cons c cs =>
    by_cases h : p c = true
    · rw [rmatch, deriv, if_pos h, eps_rmatch_iff]
      constructor
      · rintro rfl; exact ⟨c, rfl, h⟩
      · rintro ⟨c2, he, _⟩
        exact (List.cons.injEq _ _ _ _ ▸ he).2
    · rw [rmatch, deriv, if_neg h]
      rw [emp_rmatch]
      constructor
      · intro hf; exact absurd hf (by decide)
      · rintro ⟨c2, he, hc2⟩
        obtain ⟨rfl, -⟩ := List.cons.injEq _ _ _ _ ▸ he
        exact absurd hc2 h

theorem alt_rmatch (r s : RE) (x : List Char) :
    rmatch (.alt r s) x = (rmatch r x || rmatch s x) := by
  induction x generalizing r s with
  | nil => rfl
  | cons c cs ih => exact ih (deriv r c) (deriv s c)

theorem cat_rmatch_iff (r s : RE) (x : List Char) :
    rmatch (.cat r s) x = true ↔
      ∃ t u, x = t ++ u ∧ rmatch r t = true ∧ rmatch s u = true := by
  induction x generalizing r s with
  | nil =>
    show (nullable r && nullable s) = true ↔ _
    rw [Bool.and_eq_true]
    constructor
    · rintro ⟨h1, h2⟩; exact ⟨[], [], rfl, h1, h2⟩
    · rintro ⟨t, u, he, h1, h2⟩
      obtain ⟨rfl, rfl⟩ := List.append_eq_nil.1 he.symm
      exact ⟨h1, h2⟩
  | cons a x ih =>
    rw [rmatch, deriv]
    by_cases he : nullable r = true
    · rw [if_pos he, alt_rmatch, Bool.or_eq_true, ih]
      constructor
      · rintro (⟨t, u, rfl, h1, h2⟩ | h)
        · exact ⟨a :: t, u, rfl, h1, h2⟩
        · exact ⟨[], a :: x, rfl, he, h⟩
      · rintro ⟨t, u, hx, h1, h2⟩
        cases t with
        | nil =>
          right
          rw [List.nil_append] at hx
          show rmatch s (a :: x) = true
          rw [hx]
          exact h2
        | cons b t2 =>
          left
          rw [List.cons_append] at hx
          obtain ⟨rfl, rfl⟩ := List.cons.injEq _ _ _ _ ▸ hx
          exact ⟨t2, u, rfl, h1, h2⟩
    · rw [if_neg he, ih]
      constructor
      · rintro ⟨t, u, rfl, h1, h2⟩
        exact ⟨a :: t, u, rfl, h1, h2⟩
      · rintro ⟨t, u, hx, h1, h2⟩
        cases t with
        | nil =>
          rw [List.nil_append] at hx
          exact absurd h1 (by simp [rmatch, he])
        | cons b t2 =>
          rw [List.cons_append] at hx
          obtain ⟨rfl, rfl⟩ := List.cons.injEq _ _ _ _ ▸ hx
          exact ⟨t2, u, rfl, h1, h2⟩

theorem starCls_rmatch_iff (p : Char → Bool) (x : List Char) :
    rmatch (.star (.cls p)) x = true ↔ ∀ c ∈ x, p c = true := by
  induction x with
  | nil => simp [rmatch, nullable]
  | cons a x ih =>
    rw [rmatch]
    show rmatch (.cat (if p a then .eps else .emp) (.star (.cls p))) x = true ↔ _
    by_cases h : p a = true
    · rw [if_pos h, cat_rmatch_iff]
      constructor
      · rintro ⟨t, u, rfl, h1, h2⟩
        rw [eps_rmatch_iff] at h1
        subst h1
        rw [List.nil_append] at ih ⊢
        intro c hc
        rcases List.mem_cons.1 hc with rfl | hc2
        · exact h
        · exact ih.1 h2 c hc2
      · intro hall
        refine ⟨[], x, rfl, (eps_rmatch_iff []).2 rfl, ih.2 ?_⟩
        exact fun c hc => hall c (List.mem_cons_of_mem _ hc)
    · rw [if_neg h, cat_rmatch_iff]
      constructor
      · rintro ⟨t, u, rfl, h1, h2⟩
        rw [emp_rmatch] at h1
        exact absurd h1 (by decide)
      · intro hall
        exact absurd (hall a (List.mem_cons_self _ _)) h

theorem plusCls_rmatch_iff (p : Char → Bool) (x : List Char) :
    rmatch (rePlus (.cls p)) x = true ↔ x ≠ [] ∧ ∀ c ∈ x, p c = true := by
  rw [rePlus, cat_rmatch_iff]
  constructor
  · rintro ⟨t, u, rfl, h1, h2⟩
    obtain ⟨c, rfl, hc⟩ := (cls_rmatch_iff p t).1 h1
    rw [starCls_rmatch_iff] at h2
    refine ⟨by simp, ?_⟩
    intro d hd
    rcases List.mem_cons.1 hd with rfl | hd2
    · exact hc
    · exact h2 d hd2
  · rintro ⟨hne, hall⟩
    cases x with
    | nil => exact absurd rfl hne
    | cons c cs =>
      exact ⟨[c], cs, rfl, (cls_rmatch_iff p [c]).2 ⟨c, rfl,
          hall c (List.mem_cons_self _ _)⟩,
        (starCls_rmatch_iff p cs).2 (fun d hd => hall d (List.mem_cons_of_mem _ hd))⟩

theorem chr_rmatch_iff (a : Char) (x : List Char) :
    rmatch (chrR a) x = true ↔ x = [a] := by
  rw [chrR, cls_rmatch_iff]
  constructor
  · rintro ⟨c, rfl, hc⟩
    rw [beq_iff_eq.1 hc]
  · rintro rfl
    exact ⟨a, rfl, beq_self_eq_true a⟩

theorem matchPre_iff (r : RE) (x : List Char) :
    matchPre r x = true ↔ ∃ t u, x = t ++ u ∧ rmatch r t = true := by
  induction x generalizing r with
  | nil =>
    show nullable r = true ↔ _
    constructor
    · intro h; exact ⟨[], [], rfl, h⟩
    · rintro ⟨t, u, he, ht⟩
      obtain ⟨rfl, rfl⟩ := List.append_eq_nil.1 he.symm
      exact ht
  | cons a x ih =>
    rw [matchPre, Bool.or_eq_true, ih]
    constructor
    · rintro (h | ⟨t, u, rfl, ht⟩)
      · exact ⟨[], a :: x, rfl, h⟩
      · exact ⟨a :: t, u, rfl, ht⟩
    · rintro ⟨t, u, he, ht⟩
      cases t with
      | nil =>
        left
        rw [List.nil_append] at he
        exact ht
      | cons b t2 =>
        right
        rw [List.cons_append] at he
        obtain ⟨rfl, rfl⟩ := List.cons.injEq _ _ _ _ ▸ he
        exact ⟨t2, u, rfl, ht⟩

/-! ### Claim C2: shapes of the marker alternatives -/

/-- All characters are ASCII digits (`\d`). -/
def AllDigits (l : List Char) : Prop := ∀ c ∈ l, c.isDigit = true

/-- All characters are Python whitespace (`\s`). -/
def AllWs (l : List Char) : Prop := ∀ c ∈ l, pyIsSpace c = true

/-- No character is a newline (matched by `.`). -/
def NoNl (l : List Char) : Prop := ∀ c ∈ l, c ≠ '\n'

theorem bracket_rmatch_iff (m : List Char) :
    rmatch bracketRE m = true ↔
      ∃ ds, ds ≠ [] ∧ AllDigits ds ∧ m = '[' :: ds ++ [']'] := by
  rw [bracketRE, cat_rmatch_iff]
  constructor
  · rintro ⟨t, u, rfl, h1, h2⟩
    rw [chr_rmatch_iff] at h1
    subst h1
    rw [cat_rmatch_iff] at h2
    obtain ⟨ds, u2, rfl, hds, hu2⟩ := h2
    rw [digitC, plusCls_rmatch_iff] at hds
    rw [chr_rmatch_iff] at hu2
    subst hu2
    exact ⟨ds, hds.1, hds.2, rfl⟩
  · rintro ⟨ds, hne, hdig, rfl⟩
    refine ⟨['['], ds ++ [']'], rfl, (chr_rmatch_iff _ _).2 rfl, ?_⟩
    rw [cat_rmatch_iff, digitC]
    exact ⟨ds, [']'], rfl, (plusCls_rmatch_iff _ _).2 ⟨hne, hdig⟩,
      (chr_rmatch_iff _ _).2 rfl⟩

theorem d12_rmatch_iff (m : List Char) :
    rmatch (.cat digitC (reOpt digitC)) m = true ↔
      (m.length = 1 ∨ m.length = 2) ∧ AllDigits m := by
  rw [cat_rmatch_iff]
  constructor
  · rintro ⟨t, u, rfl, h1, h2⟩
    rw [digitC, cls_rmatch_iff] at h1
    obtain ⟨c, rfl, hc⟩ := h1
    rw [reOpt, alt_rmatch, Bool.or_eq_true, eps_rmatch_iff, digitC,
      cls_rmatch_iff] at h2
    rcases h2 with rfl | ⟨d, rfl, hd⟩
    · exact ⟨Or.inl rfl, fun x hx => by
        rcases List.mem_singleton.1 (by simpa using hx) with rfl
        exact hc⟩
    · refine ⟨Or.inr rfl, fun x hx => ?_⟩
      rcases List.mem_cons.1 hx with rfl | hx2
      · exact hc
      · rcases List.mem_singleton.1 (by simpa using hx2) with rfl
        exact hd
  · rintro ⟨hlen | hlen, hdig⟩
    · obtain ⟨a, rfl⟩ := List.length_eq_one.1 hlen
      refine ⟨[a], [], rfl, ?_, ?_⟩
      · rw [digitC, cls_rmatch_iff]
        exact ⟨a, rfl, hdig a (List.mem_singleton_self a)⟩
      · rw [reOpt, alt_rmatch, Bool.or_eq_true, eps_rmatch_iff]
        exact Or.inl rfl
    · obtain ⟨a, b, rfl⟩ := List.length_eq_two.1 hlen
      refine ⟨[a], [b], rfl, ?_, ?_⟩
      · rw [digitC, cls_rmatch_iff]
        exact ⟨a, rfl, hdig a (List.mem_cons_self _ _)⟩
      · rw [reOpt, alt_rmatch, Bool.or_eq_true]
        right
        rw [digitC, cls_rmatch_iff]
        exact ⟨b, rfl, hdig b (by simp)⟩

theorem d2_rmatch_iff (m : List Char) :
    rmatch (.cat digitC digitC) m = true ↔ m.length = 2 ∧ AllDigits m := by
  rw [cat_rmatch_iff]
  constructor
  · rintro ⟨t, u, rfl, h1, h2⟩
    rw [digitC, cls_rmatch_iff] at h1 h2
    obtain ⟨c, rfl, hc⟩ := h1
    obtain ⟨d, rfl, hd⟩ := h2
    refine ⟨rfl, fun x hx => ?_⟩
    rcases List.mem_cons.1 hx with rfl | hx2
    · exact hc
    · rcases List.mem_singleton.1 (by simpa using hx2) with rfl
      exact hd
  · rintro ⟨hlen, hdig⟩
    obtain ⟨a, b, rfl⟩ := List.length_eq_two.1 hlen
    refine ⟨[a], [b], rfl, ?_, ?_⟩
    · rw [digitC, cls_rmatch_iff]
      exact ⟨a, rfl, hdig a (List.mem_cons_self _ _)⟩
    · rw [digitC, cls_rmatch_iff]
      exact ⟨b, rfl, hdig b (by simp)⟩

theorem clock_rmatch_iff (m : List Char) :
    rmatch clockRE m = true ↔
      ∃ h mm : List Char, (h.length = 1 ∨ h.length = 2) ∧ AllDigits h ∧
        mm.length = 2 ∧ AllDigits mm ∧
        (m = h ++ ':' :: mm ∨
          ∃ ss, ss.length = 2 ∧ AllDigits ss ∧ m = h ++ ':' :: mm ++ ':' :: ss) := by
  rw [clockRE, cat_rmatch_iff]
  constructor
  · rintro ⟨h, rest, rfl, hh, hrest⟩
    rw [d12_rmatch_iff] at hh
    rw [cat_rmatch_iff] at hrest
    obtain ⟨t, rest2, rfl, ht, hrest2⟩ := hrest
    rw [chr_rmatch_iff] at ht
    subst ht
    rw [cat_rmatch_iff] at hrest2
    obtain ⟨mm, opt, rfl, hmm, hopt⟩ := hrest2
    rw [d2_rmatch_iff] at hmm
    rw [reOpt, alt_rmatch, Bool.or_eq_true, eps_rmatch_iff] at hopt
    rcases hopt with rfl | hss
    · exact ⟨h, mm, hh.1, hh.2, hmm.1, hmm.2, Or.inl (by simp)⟩
    · rw [cat_rmatch_iff] at hss
      obtain ⟨t2, ss, rfl, ht2, hss2⟩ := hss
      rw [chr_rmatch_iff] at ht2
      subst ht2
      rw [d2_rmatch_iff] at hss2
      exact ⟨h, mm, hh.1, hh.2, hmm.1, hmm.2,
        Or.inr ⟨ss, hss2.1, hss2.2, by simp⟩⟩
  · rintro ⟨h, mm, hh1, hh2, hmm1, hmm2, rfl | ⟨ss, hss1, hss2, rfl⟩⟩
    · refine ⟨h, ':' :: mm, rfl, (d12_rmatch_iff h).2 ⟨hh1, hh2⟩, ?_⟩
      rw [cat_rmatch_iff]
      refine ⟨[':'], mm, rfl, (chr_rmatch_iff _ _).2 rfl, ?_⟩
      rw [cat_rmatch_iff]
      refine ⟨mm, [], by simp, (d2_rmatch_iff mm).2 ⟨hmm1, hmm2⟩, ?_⟩
      rw [reOpt, alt_rmatch, Bool.or_eq_true, eps_rmatch_iff]
      exact Or.inl rfl
    · refine ⟨h, ':' :: mm ++ ':' :: ss, by simp, (d12_rmatch_iff h).2 ⟨hh1, hh2⟩, ?_⟩
      rw [cat_rmatch_iff]
      refine ⟨[':'], mm ++ ':' :: ss, rfl, (chr_rmatch_iff _ _).2 rfl, ?_⟩
      rw [cat_rmatch_iff]
      refine ⟨mm, ':' :: ss, rfl, (d2_rmatch_iff mm).2 ⟨hmm1, hmm2⟩, ?_⟩
      rw [reOpt, alt_rmatch, Bool.or_eq_true]
      right
      rw [cat_rmatch_iff]
      exact ⟨[':'], ss, rfl, (chr_rmatch_iff _ _).2 rfl,
        (d2_rmatch_iff ss).2 ⟨hss1, hss2⟩⟩

theorem d13_rmatch_iff (m : List Char) :
    rmatch (.cat digitC (reOpt (.cat digitC (reOpt digitC)))) m = true ↔
      1 ≤ m.length ∧ m.length ≤ 3 ∧ AllDigits m := by
  rw [cat_rmatch_iff]
  constructor
  · rintro ⟨t, u, rfl, h1, h2⟩
    rw [digitC, cls_rmatch_iff] at h1
    obtain ⟨c, rfl, hc⟩ := h1
    rw [reOpt, alt_rmatch, Bool.or_eq_true, eps_rmatch_iff, d12_rmatch_iff] at h2
    rcases h2 with rfl | ⟨hlen, hdig⟩
    · refine ⟨by simp, by simp, fun x hx => ?_⟩
      rcases List.mem_singleton.1 (by simpa using hx) with rfl
      exact hc
    · refine ⟨by simp, ?_, fun x hx => ?_⟩
      · rcases hlen with hl | hl <;> simp [hl]
      · rcases List.mem_cons.1 hx with rfl | hx2
        · exact hc
        · exact hdig x hx2
  · rintro ⟨h1, h3, hdig⟩
    cases m with
    | nil => simp at h1
    | cons c cs =>
      refine ⟨[c], cs, rfl, ?_, ?_⟩
      · rw [digitC, cls_rmatch_iff]
        exact ⟨c, rfl, hdig c (List.mem_cons_self _ _)⟩
      · rw [reOpt, alt_rmatch, Bool.or_eq_true, eps_rmatch_iff, d12_rmatch_iff]
        cases cs with
        | nil => exact Or.inl rfl
        | cons d ds =>
          right
          have hdigcs : AllDigits (d :: ds) :=
            fun x hx => hdig x (List.mem_cons_of_mem _ hx)
          refine ⟨?_, hdigcs⟩
          simp only [List.length_cons] at h3 ⊢
          omega

theorem ord_rmatch_iff (m : List Char) :
    rmatch ordRE m = true ↔
      ∃ ds, 1 ≤ ds.length ∧ ds.length ≤ 3 ∧ AllDigits ds ∧ m = ds ++ ['.'] := by
  rw [ordRE, cat_rmatch_iff]
  constructor
  · rintro ⟨ds, u, rfl, h1, h2⟩
    rw [d13_rmatch_iff] at h1
    rw [chr_rmatch_iff] at h2
    subst h2
    exact ⟨ds, h1.1, h1.2.1, h1.2.2, rfl⟩
  · rintro ⟨ds, h1, h3, hdig, rfl⟩
    exact ⟨ds, ['.'], rfl, (d13_rmatch_iff ds).2 ⟨h1, h3, hdig⟩,
      (chr_rmatch_iff _ _).2 rfl⟩

/-- Marker shapes of the code's regex: bracketed integer, clock timestamp
with 1-2 digit hour, or any 1-3 digits followed by a period. -/
def CodeMarker (m : List Char) : Prop :=
  (∃ ds, ds ≠ [] ∧ AllDigits ds ∧ m = '[' :: ds ++ [']']) ∨
  (∃ h mm : List Char, (h.length = 1 ∨ h.length = 2) ∧ AllDigits h ∧
    mm.length = 2 ∧ AllDigits mm ∧
    (m = h ++ ':' :: mm ∨
      ∃ ss, ss.length = 2 ∧ AllDigits ss ∧ m = h ++ ':' :: mm ++ ':' :: ss)) ∨
  (∃ ds, 1 ≤ ds.length ∧ ds.length ≤ 3 ∧ AllDigits ds ∧ m = ds ++ ['.'])

theorem marker_rmatch_iff (m : List Char) :
    rmatch markerRE m = true ↔ CodeMarker m := by
  rw [markerRE, alt_rmatch, alt_rmatch, Bool.or_eq_true, Bool.or_eq_true,
    bracket_rmatch_iff, clock_rmatch_iff, ord_rmatch_iff, CodeMarker]

theorem tail_rmatch_iff (t : List Char) :
    rmatch tailRE t = true ↔
      ∃ w1 b w2 w3 e, t = w1 ++ b ++ w2 ++ '-' :: (w3 ++ e) ∧
        w1 ≠ [] ∧ AllWs w1 ∧ b ≠ [] ∧ NoNl b ∧ w2 ≠ [] ∧ AllWs w2 ∧
        w3 ≠ [] ∧ AllWs w3 ∧ e ≠ [] ∧ NoNl e := by
  rw [tailRE, cat_rmatch_iff]
  constructor
  · rintro ⟨w1, r1, rfl, h1, hr1⟩
    rw [wsC, plusCls_rmatch_iff] at h1
    rw [cat_rmatch_iff] at hr1
    obtain ⟨b, r2, rfl, hb, hr2⟩ := hr1
    rw [dotC, plusCls_rmatch_iff] at hb
    rw [cat_rmatch_iff] at hr2
    obtain ⟨w2, r3, rfl, h2, hr3⟩ := hr2
    rw [wsC, plusCls_rmatch_iff] at h2
    rw [cat_rmatch_iff] at hr3
    obtain ⟨d, r4, rfl, hd, hr4⟩ := hr3
    rw [chr_rmatch_iff] at hd
    subst hd
    rw [cat_rmatch_iff] at hr4
    obtain ⟨w3, e, rfl, h3, he⟩ := hr4
    rw [wsC, plusCls_rmatch_iff] at h3
    rw [dotC, plusCls_rmatch_iff] at he
    refine ⟨w1, b, w2, w3, e, by simp, h1.1, h1.2, hb.1,
      fun c hc => bne_iff_ne.1 (hb.2 c hc), h2.1, h2.2, h3.1, h3.2, he.1,
      fun c hc => bne_iff_ne.1 (he.2 c hc)⟩
  · rintro ⟨w1, b, w2, w3, e, rfl, hw1, haw1, hb, hnb, hw2, haw2, hw3, haw3, he, hne⟩
    refine ⟨w1, b ++ w2 ++ '-' :: (w3 ++ e), by simp, ?_, ?_⟩
    · rw [wsC, plusCls_rmatch_iff]; exact ⟨hw1, haw1⟩
    · rw [cat_rmatch_iff]
      refine ⟨b, w2 ++ '-' :: (w3 ++ e), by simp, ?_, ?_⟩
      · rw [dotC, plusCls_rmatch_iff]
        exact ⟨hb, fun c hc => bne_iff_ne.2 (hnb c hc)⟩
      · rw [cat_rmatch_iff]
        refine ⟨w2, '-' :: (w3 ++ e), rfl, ?_, ?_⟩
        · rw [wsC, plusCls_rmatch_iff]; exact ⟨hw2, haw2⟩
        · rw [cat_rmatch_iff]
          refine ⟨['-'], w3 ++ e, rfl, (chr_rmatch_iff _ _).2 rfl, ?_⟩
          rw [cat_rmatch_iff]
          refine ⟨w3, e, rfl, ?_, ?_⟩
          · rw [wsC, plusCls_rmatch_iff]; exact ⟨hw3, haw3⟩
          · rw [dotC, plusCls_rmatch_iff]
            exact ⟨he, fun c hc => bne_iff_ne.2 (hne c hc)⟩

/-- The keep condition recognized by tracklist_pattern, as a decomposition:
marker, then one-or-more whitespace, non-empty newline-free text, one-or-more
whitespace, `-`, one-or-more whitespace, then text whose first character
exists and is not a newline (the regex is a prefix match, so anything may
follow). -/
def CodeC2Keep (l : List Char) : Prop :=
  ∃ m w1 b w2 w3 f, l = m ++ w1 ++ b ++ w2 ++ '-' :: (w3 ++ f) ∧ CodeMarker m ∧
    w1 ≠ [] ∧ AllWs w1 ∧ b ≠ [] ∧ NoNl b ∧ w2 ≠ [] ∧ AllWs w2 ∧
    w3 ≠ [] ∧ AllWs w3 ∧ ∃ ec erest, f = ec :: erest ∧ ec ≠ '\n'

theorem trackPattern_matchPre_iff (l : List Char) :
    matchPre trackPattern l = true ↔ CodeC2Keep l := by
  rw [matchPre_iff]
  constructor
  · rintro ⟨u, v, rfl, hu⟩
    rw [trackPattern, cat_rmatch_iff] at hu
    obtain ⟨m, t, rfl, hm, ht⟩ := hu
    rw [marker_rmatch_iff] at hm
    rw [tail_rmatch_iff] at ht
    obtain ⟨w1, b, w2, w3, e, rfl, hw1, haw1, hb, hnb, hw2, haw2, hw3, haw3, he,
      hne⟩ := ht
    cases e with
    | nil => exact absurd rfl he
    | cons ec erest =>
      refine ⟨m, w1, b, w2, w3, ec :: (erest ++ v), ?_, hm, hw1, haw1, hb, hnb, hw2,
        haw2, hw3, haw3, ec, erest ++ v, rfl, hne ec (List.mem_cons_self _ _)⟩
      simp
  · rintro ⟨m, w1, b, w2, w3, f, rfl, hm, hw1, haw1, hb, hnb, hw2, haw2, hw3, haw3,
      ec, erest, rfl, hec⟩
    refine ⟨m ++ (w1 ++ b ++ w2 ++ '-' :: (w3 ++ [ec])), erest, by simp, ?_⟩
    rw [trackPattern, cat_rmatch_iff]
    refine ⟨m, w1 ++ b ++ w2 ++ '-' :: (w3 ++ [ec]), rfl,
      (marker_rmatch_iff m).2 hm, ?_⟩
    rw [tail_rmatch_iff]
    refine ⟨w1, b, w2, w3, [ec], rfl, hw1, haw1, hb, hnb, hw2, haw2, hw3, haw3,
      by simp, ?_⟩
    intro c hc
    rcases List.mem_singleton.1 hc with rfl
    exact hec

theorem keepLine_isSome_iff (line : String) :
    (keepLine line).isSome = true ↔ CodeC2Keep (stripList line.data) := by
  rw [keepLine]
  by_cases h : (pyStrip line).data ≠ [] ∧ matchPre trackPattern (pyStrip line).data = true
  · rw [if_pos h]
    simp only [Option.isSome_some, true_iff]
    exact (trackPattern_matchPre_iff _).1 h.2
  · rw [if_neg h]
    constructor
    · intro hf
      exact absurd hf (by decide)
    intro hc
    exfalso
    apply h
    constructor
    · obtain ⟨m, w1, b, w2, w3, f, heq, -⟩ := hc
      show stripList line.data ≠ []
      rw [heq]
      simp
    · exact (trackPattern_matchPre_iff _).2 hc

/-! ### Claim C2: the claim's own pattern, and the verdicts -/

/-- Marker shape exactly as claim C2 words it: like the code's, except that
the ordinal alternative covers `1.` through `999.` only. -/
def ClaimMarker (m : List Char) : Prop :=
  (∃ ds, ds ≠ [] ∧ AllDigits ds ∧ m = '[' :: ds ++ [']']) ∨
  (∃ h mm : List Char, (h.length = 1 ∨ h.length = 2) ∧ AllDigits h ∧
    mm.length = 2 ∧ AllDigits mm ∧
    (m = h ++ ':' :: mm ∨
      ∃ ss, ss.length = 2 ∧ AllDigits ss ∧ m = h ++ ':' :: mm ++ ':' :: ss)) ∨
  (∃ ds, 1 ≤ ds.length ∧ ds.length ≤ 3 ∧ AllDigits ds ∧ ds.head? ≠ some '0' ∧
    m = ds ++ ['.'])

/-- Claim C2's keep condition as stated: marker, required whitespace, some
text, the literal `" - "`, then non-empty text to end of line. -/
def ClaimC2Keep (l : List Char) : Prop :=
  ∃ m w1 b e, l = m ++ w1 ++ b ++ " - ".data ++ e ∧ ClaimMarker m ∧
    w1 ≠ [] ∧ AllWs w1 ∧ b ≠ [] ∧ e ≠ []

/-- Claim C2 counterexample: the fallback keeps `"0. Artist - Title"` (the
regex ordinal `\d{1,3}\.` accepts `0.`, outside the claim's `1.`-`999.`) and
keeps `"12:34 Artist\t- Title"` (the separator is `\s+-\s+`, not the literal
`" - "`), while the claim's stated pattern rejects both. -/
theorem c2_cex :
    keepLine "0. Artist - Title" = some "0. Artist - Title" ∧
    ¬ ClaimC2Keep ("0. Artist - Title" : String).data ∧
    keepLine "12:34 Artist\t- Title" = some "12:34 Artist\t- Title" ∧
    ¬ ClaimC2Keep ("12:34 Artist\t- Title" : String).data := by
  refine ⟨by decide, ?_, by decide, ?_⟩
  · rintro ⟨m, w1, b, e, hconcat, hm, hw1, hwall, hb, he⟩
    rcases hm with ⟨ds, hne, hdig, rfl⟩ | ⟨h, mm, hlen, hdigh, hmm2, hdigmm, hshape⟩ |
      ⟨ds, h1, h3, hdig, hhead, rfl⟩
    · have h0 := congrArg List.head? hconcat
      rw [show (('[' :: ds ++ [']']) ++ w1 ++ b ++ " - ".data ++ e).head? = some '['
        from rfl] at h0
      exact absurd h0 (by decide)
    · rcases hlen with hl | hl
      · obtain ⟨a, rfl⟩ := List.length_eq_one.1 hl
        rcases hshape with rfl | ⟨ss, hss2, hssd, rfl⟩
        · have h0 := congrArg (fun l => l.get? 1) hconcat
          simp only [] at h0
          rw [show ((([a] ++ ':' :: mm) ++ w1 ++ b ++ " - ".data ++ e).get? 1) =
            some ':' from rfl] at h0
          exact absurd h0 (by decide)
        · have h0 := congrArg (fun l => l.get? 1) hconcat
          simp only [] at h0
          rw [show ((([a] ++ ':' :: mm ++ ':' :: ss) ++ w1 ++ b ++ " - ".data ++
            e).get? 1) = some ':' from rfl] at h0
          exact absurd h0 (by decide)
      · obtain ⟨a, a2, rfl⟩ := List.length_eq_two.1 hl
        have hd2 : a2.isDigit = true := hdigh a2 (by simp)
        rcases hshape with rfl | ⟨ss, hss2, hssd, rfl⟩
        · have h0 := congrArg (fun l => l.get? 1) hconcat
          simp only [] at h0
          rw [show ((([a, a2] ++ ':' :: mm) ++ w1 ++ b ++ " - ".data ++ e).get? 1) =
            some a2 from rfl] at h0
          rw [← Option.some.inj h0] at hd2
          exact absurd hd2 (by decide)
        · have h0 := congrArg (fun l => l.get? 1) hconcat
          simp only [] at h0
          rw [show ((([a, a2] ++ ':' :: mm ++ ':' :: ss) ++ w1 ++ b ++ " - ".data ++
            e).get? 1) = some a2 from rfl] at h0
          rw [← Option.some.inj h0] at hd2
          exact absurd hd2 (by decide)
    · cases ds with
      | nil => simp at h1
      | cons d ds2 =>
        have h0 := congrArg List.head? hconcat
        rw [show (((d :: ds2) ++ ['.']) ++ w1 ++ b ++ " - ".data ++ e).head? = some d
          from rfl] at h0
        apply hhead
        rw [List.head?_cons, ← Option.some.inj h0]
  · rintro ⟨m, w1, b, e, hconcat, hm, hw1, hwall, hb, he⟩
    have hsub : containsSub " - ".data ("12:34 Artist\t- Title" : String).data
        = true := by
      rw [containsSub_iff _ (by decide)]
      exact ⟨m ++ w1 ++ b, e, by simpa [List.append_assoc] using hconcat⟩
    exact absurd hsub (by decide)

/-- Claim C2, amended: a flattened line is kept iff its stripped text starts
with a bracketed integer, a clock timestamp (`H:MM` or `H:MM:SS`, 1-2 digit
hour), or any 1-3 digits with a trailing period (`0.` and `007.` included),
followed by required whitespace, then some text, then a separator of
one-or-more whitespace, `-`, one-or-more whitespace, then non-empty text
(text pieces newline-free, which flattened lines always are); in particular
it keeps `"[007] Artist - Title"`, `"12:34 Artist - Title"`,
`"3. Artist - Title"` and drops `"Artist - Title"` and
`"12:34 NoSeparatorHere"`. -/
theorem c2_thm :
    (∀ line : String,
      (keepLine line).isSome = true ↔ CodeC2Keep (stripList line.data)) ∧
    keepLine "[007] Artist - Title" = some "[007] Artist - Title" ∧
    keepLine "12:34 Artist - Title" = some "12:34 Artist - Title" ∧
    keepLine "3. Artist - Title" = some "3. Artist - Title" ∧
    keepLine "Artist - Title" = none ∧
    keepLine "12:34 NoSeparatorHere" = none := by
  exact ⟨keepLine_isSome_iff, by decide, by decide, by decide, by decide, by decide⟩

end Spec2Proof
